import Mathlib

/-!
Verification of the package build orchestrator (`importSrc` / `importSrcArchive`
and the vendor-chain path helpers) of the interpreter source in
`src/export/sym_os_user.go` (package `interp`).

The development shallowly embeds the Go code:
  * path-string helpers (`strings.Split`, `path/filepath.Clean`, `Join`, `Dir`,
    `isPathRelative`, `previousRoot`, `effectivePkg`) as pure Lean functions;
  * the interpreter's mutable maps (`srcPkg`, `pkgNames`, `rdir`, `scopes`) as a
    record of total functions;
  * external collaborators (parser, gta declaration pass, cfg lowering,
    evaluator, file filter, filesystem) as an environment of oracle functions;
  * `importSrc` as a fuel-indexed state-passing function that also emits a
    trace of observable events (file reads, parses, declarations, lowerings,
    executions), so that "no re-parsing" or "before any lowering" claims can
    be stated about the trace.
-/

namespace YaegiImport

/-! ## Path-string helpers (Go `strings` / `path/filepath` for unix)

The Go string primitives are embedded structurally over the character list of
a `String` (rather than through the Lean core counterparts, whose
well-founded recursion does not evaluate inside the kernel). -/

/-- Go `strings.Split(s, "/")`, accumulator form: `acc` is the current
segment, reversed. -/
def goSplitAux : List Char → List Char → List String
  | [], acc => [⟨acc.reverse⟩]
  | c :: rest, acc =>
    if c = '/' then ⟨acc.reverse⟩ :: goSplitAux rest []
    else goSplitAux rest (c :: acc)

/-- Go `strings.Split(s, string(filepath.Separator))` (separator `"/"`). -/
def goSplit (s : String) : List String := goSplitAux s.data []

/-- Go `strings.HasPrefix`. -/
def goHasPrefix (s p : String) : Bool := p.data.isPrefixOf s.data

/-- Go `strings.HasSuffix`. -/
def goHasSuffix (s p : String) : Bool := p.data.isSuffixOf s.data

/-- Go `strings.Join(elems, "/")`. -/
def joinSlash : List String → String
  | [] => ""
  | [x] => x
  | x :: y :: rest => x ++ "/" ++ joinSlash (y :: rest)

/-- Segment-wise core of Go `path/filepath.Clean`: `out` is the reversed list
of output segments accumulated so far. Empty and `"."` segments are dropped;
`".."` pops a segment unless the output is empty (kept for relative paths,
dropped at the root of rooted paths). -/
def cleanAux (rooted : Bool) : List String → List String → List String
  | out, [] => out
  | out, seg :: rest =>
    if seg = "" ∨ seg = "." then cleanAux rooted out rest
    else if seg = ".." then
      match out with
      | [] => if rooted then cleanAux rooted [] rest else cleanAux rooted [".."] rest
      | o :: os =>
        if o = ".." then cleanAux rooted (".." :: o :: os) rest
        else cleanAux rooted os rest
    else cleanAux rooted (seg :: out) rest

/-- Go `path/filepath.Clean` on unix paths. -/
def cleanPath (s : String) : String :=
  if s = "" then "."
  else
    let rooted := goHasPrefix s "/"
    let out := (cleanAux rooted [] (goSplit s)).reverse
    let body := joinSlash out
    if rooted then (if body = "" then "/" else "/" ++ body)
    else (if body = "" then "." else body)

/-- Go `path/filepath.Join`: skip leading empty elements, join the rest with
`"/"` and `Clean` the result; all-empty input yields `""`. -/
def goJoinList : List String → String
  | [] => ""
  | e :: rest =>
    if e = "" then goJoinList rest
    else cleanPath (joinSlash (e :: rest))

/-- Binary `filepath.Join`. -/
def goJoin2 (a b : String) : String := goJoinList [a, b]

/-- Go `path/filepath.Dir`: everything up to (and including) the final slash,
cleaned; `"."` when there is no slash. -/
def goDir (s : String) : String :=
  match s.toList.reverse.findIdx? (· = '/') with
  | none => cleanPath ""
  | some j => cleanPath ⟨s.toList.take (s.length - j)⟩

/-- `isPathRelative` from the source: true iff the path starts with `"./"` or
`"../"`. -/
def isPathRelative (s : String) : Bool :=
  goHasPrefix s "./" || goHasPrefix s "../"

/-! ## `previousRoot` and `effectivePkg` (embedded from the source) -/

/-- The downward scan of `previousRoot`:
`for i := len(splitRoot) - 1; i >= 0; i-- do if splitRoot[i] == "vendor" then index = i; break`.
`vendorScan xs n` inspects indices `n-1, n-2, …, 0`; the default is `0`. -/
def vendorScan (splitRoot : List String) : Nat → Nat
  | 0 => 0
  | i + 1 => if splitRoot.getD i "" = "vendor" then i else vendorScan splitRoot i

/-- `previousRoot` from the source: split the root on the separator, find the
last segment equal to `"vendor"` (defaulting to 0), return `""` when that index
is 0, otherwise rejoin the segments strictly before it. -/
def previousRoot (root : String) : String :=
  let splitRoot := goSplit root
  let index := vendorScan splitRoot splitRoot.length
  if index = 0 then ""
  else goJoinList (splitRoot.take index)

/-- Loop state of `effectivePkg`: Go's `rootIndex`, `prevRootIndex` and the
`result` slice (in Go append order). -/
structure EPSt where
  rootIndex : Nat
  prevRootIndex : Nat
  result : List String
deriving Repr

/-- The loop of `effectivePkg`. Go iterates `i` from `0` and reads
`part := splitPath[len(splitPath)-1-i]`, i.e. it walks the path segments in
reverse; here the reversed segment list is consumed structurally while the
counter `i` is kept for the `i != 0` test. -/
def epLoop (splitRoot : List String) : List String → Nat → EPSt → EPSt
  | [], _, st => st
  | part :: rest, i, st =>
    let index : Int := (splitRoot.length : Int) - 1 - (st.rootIndex : Int)
    if 0 < index ∧ part = splitRoot.getD index.toNat "" ∧ i ≠ 0 then
      epLoop splitRoot rest (i + 1) ⟨st.rootIndex + 1, st.rootIndex, st.result⟩
    else if st.prevRootIndex = st.rootIndex then
      epLoop splitRoot rest (i + 1) ⟨st.rootIndex, st.prevRootIndex, st.result ++ [part]⟩
    else
      epLoop splitRoot rest (i + 1) st

/-- `effectivePkg` from the source: the final `frag` is built by
`frag = filepath.Join(frag, result[i])` for `i` from `len(result)-1` down to
`0`, i.e. a left fold of `Join` over the reversed `result` slice. -/
def effectivePkg (root path : String) : String :=
  let splitRoot := goSplit root
  let splitPath := goSplit path
  let st := epLoop splitRoot splitPath.reverse 0 ⟨0, 0, []⟩
  let frag := st.result.reverse.foldl goJoin2 ""
  goJoin2 root frag

/-! Spec-side restatement of `previousRoot` (from the spec's words: "find the
last segment equal to the vendor marker; if it is at position 0 (or absent),
return an empty root; otherwise return the segments strictly before that
marker, rejoined"). -/

/-- Index of the last segment equal to `"vendor"`, when present: a later
occurrence wins over an earlier one. -/
def lastVendorIdxSpec : List String → Option Nat
  | [] => none
  | s :: rest =>
    match lastVendorIdxSpec rest with
    | some j => some (j + 1)
    | none => if s = "vendor" then some 0 else none

/-- `previousRoot` as the spec phrases it. -/
def previousRootSpec (root : String) : String :=
  let segs := goSplit root
  match lastVendorIdxSpec segs with
  | none => ""
  | some 0 => ""
  | some i => goJoinList (segs.take i)

/-! ## The interpreter model

Errors are Go error strings. -/

abbrev Err := String

/-- An AST node (Go `*node`); only its identity matters here. -/
structure node where
  id : Nat
deriving DecidableEq, Repr

/-- A package symbol table (Go `map[string]*symbol`, with each symbol reduced
to the node it carries, which is all `importSrc` reads from it). -/
abbrev SymTable := List (String × node)

/-- Go `mainID`. -/
def mainID : String := "main"

/-- Decidable equality of `Except` values, for concrete evaluation. -/
instance {α β : Type} [DecidableEq α] [DecidableEq β] : DecidableEq (Except α β) := fun x y =>
  match x, y with
  | .ok a, .ok b =>
    if h : a = b then .isTrue (congrArg Except.ok h)
    else .isFalse (fun hc => h (Except.ok.inj hc))
  | .ok _, .error _ => .isFalse (fun hc => Except.noConfusion hc)
  | .error _, .ok _ => .isFalse (fun hc => Except.noConfusion hc)
  | .error a, .error b =>
    if h : a = b then .isTrue (congrArg Except.error h)
    else .isFalse (fun hc => h (Except.error.inj hc))

/-- The interpreter state touched by `importSrc`: `interp.name` plus the four
maps `srcPkg`, `pkgNames`, `rdir` and `scopes` (scopes reduced to their `sym`
tables). Go map lookups of absent keys yield the zero value, hence the
`Option` / `Bool` / default-`[]` codomains. -/
structure Interpreter where
  name : String
  srcPkg : String → Option SymTable
  pkgNames : String → Option String
  rdir : String → Bool
  scopes : String → SymTable

/-- Pointwise map update. -/
def upd {α : Type} (f : String → α) (k : String) (v : α) : String → α :=
  fun q => if q = k then v else f q

/-- Observable events emitted while importing: directory listing, file reads,
parses (`interp.ast`), per-file declaration passes (`interp.gta`), declaration
retries (`interp.gtaRetry`), control-flow lowering (`interp.cfg`, tagged with
the import path it is invoked with), entry-point wiring runs
(`interp.run(root, nil)`), the combined global-vars run, and init/entry-point
runs (`interp.run(n, interp.frame)`). -/
inductive Ev where
  | readDir (dir : String)
  | readFile (name : String)
  | parse (name : String)
  | declareFile (n : node)
  | retry (p : String)
  | lower (n : node) (p : String)
  | wiring (n : node)
  | globals (p : String)
  | initRun (n : node)
deriving DecidableEq, Repr

/-- Result of one `importSrc` call: Go's `(string, error)` return, the state
after the call (Go mutates the receiver in place), and the emitted events. -/
abbrev ImpResult := (Except Err String) × Interpreter × List Ev

/-- The recursive entry point handed to the loop bodies (the lower-fuel
`importSrc`, as invoked from inside the gta pass on `import` declarations). -/
abbrev Sub := Interpreter → String → String → Bool → ImpResult

/-- The external collaborators and ambient process state: filesystem and
workspace oracles plus the parse/declare/lower/run passes, which live outside
this source fragment (spec §6). `nodeImports` lists the `(rPath, importPath)`
sub-imports the gta pass performs for a file's root node (spec §4.4 step 3:
declaring a file triggers the imports it mentions); `gta` then returns the
updated package symbol table and the nodes left pending for the retry pass. -/
structure Env where
  getwd : Except Err String
  gopath : String
  stat : String → Bool
  ctxImport : String → Except Err (String × String)
  readDir : String → Except Err (List String)
  skipFile : String → Bool → Bool
  readFile : String → Except Err String
  ast : String → String → Except Err (String × Option node)
  nodeImports : node → List (String × String)
  gta : node → String → String → SymTable → Except Err (SymTable × List node)
  gtaRetry : List node → String → SymTable → Except Err SymTable
  cfg : node → String → Except Err (List node)
  genRun : node → Option Err
  genGlobalVars : List node → SymTable → Except Err node

/-- Go error messages produced by `importSrc` itself. -/
def importCycleMsg (p : String) : Err :=
  "import cycle not allowed\n\timports " ++ p

def inconsistentMsg (p : String) : Err :=
  "inconsistent knowledge about " ++ p

def pkgConflictMsg (a b dir : String) : Err :=
  "found packages " ++ a ++ " and " ++ b ++ " in " ++ dir

def notFoundMsg (p : String) : Err :=
  "unable to find source related to: \"" ++ p ++ "\""

def fuelMsg : Err := "model: import recursion fuel exhausted"

/-- Go `strings.TrimPrefix`. -/
def trimPrefix (s p : String) : String :=
  if goHasPrefix s p then ⟨s.data.drop p.data.length⟩ else s

/-- `rootFromSourceLocation` from the source: the identity on `rPath` unless
`rPath == "main"` and the interpreter input is a `.go` file, in which case the
directory of the input file is resolved against `$GOPATH/src`. -/
def rootFromSourceLocation (env : Env) (iname rPath : String) : Except Err String :=
  if rPath ≠ "main" ∨ ¬ goHasSuffix iname ".go" then .ok rPath
  else
    match env.getwd with
    | .error e => .error e
    | .ok wd =>
      let pkgdir := goJoin2 wd (goDir iname)
      let root := trimPrefix pkgdir (goJoin2 env.gopath "src" ++ "/")
      if root = wd then .error ("package location " ++ pkgdir ++ " not in GOPATH")
      else .ok root

/-- `pkgDir` from the source, with the filesystem probed through `env.stat`
and the `go/build` fallback through `env.ctxImport`. The Go recursion
terminates because `previousRoot` strictly shrinks the root; here a fuel
argument bounds it, and every call site passes more fuel than the root has
segments. -/
def pkgDirRec (env : Env) : Nat → String → String → Except Err (String × String)
  | 0, _, _ => .error fuelMsg
  | fuel + 1, root, path =>
    let rPath := goJoin2 root "vendor"
    let dir := goJoinList [env.gopath, "src", rPath, path]
    if env.stat dir then .ok (dir, rPath)
    else
      let dir2 := goJoinList [env.gopath, "src", effectivePkg root path]
      if env.stat dir2 then .ok (dir2, root)
      else if root.length = 0 then
        match env.ctxImport path with
        | .ok pkg => .ok pkg
        | .error _ => .error (notFoundMsg path)
      else pkgDirRec env fuel (previousRoot root) path

/-- The resolution prologue of `importSrc` (lines 51–69): relative import
paths are joined against the directory of the interpreter input file;
absolute ones go through `rootFromSourceLocation` and `pkgDir`. Returns the
directory together with the (possibly reassigned) `rPath`. -/
def resolveDir (env : Env) (iname rPath importPath : String) :
    Except Err (String × String) :=
  if isPathRelative importPath then
    let rP := if rPath = "main" then "." else rPath
    .ok (goJoinList [goDir iname, rP, importPath], rP)
  else
    match rootFromSourceLocation env iname rPath with
    | .error e => .error e
    | .ok root => pkgDirRec env (root.length + 2) root importPath

/-- Accumulator of the parse loop: the interpreter state, the package name
seen so far, the collected root nodes and the `revisit` partition map (an
association list in Go insertion order). -/
structure LoopSt where
  interp : Interpreter
  pkgName : String
  rootNodes : List node
  revisit : List (String × List node)

/-- `revisit[k] = append(revisit[k], ns...)` on the association list. -/
def revisitAdd : List (String × List node) → String → List node → List (String × List node)
  | [], k, ns => [(k, ns)]
  | (k', ns') :: rest, k, ns =>
    if k' = k then (k', ns' ++ ns) :: rest
    else (k', ns') :: revisitAdd rest k ns

/-- The sub-imports the gta pass performs for one file (one recursive
`importSrc` per `import` declaration; modelled from the spec, the gta source
being outside this fragment). The first failing sub-import aborts, as spec
§4.4 requires ("Failure at any step aborts the whole import"). -/
def subImports (sub : Sub) (skipTest : Bool) :
    List (String × String) → Interpreter → (Option Err) × Interpreter × List Ev
  | [], σ => (none, σ, [])
  | (rp, ip) :: rest, σ =>
    match sub σ rp ip skipTest with
    | (.ok _, σ', tr) =>
      match subImports sub skipTest rest σ' with
      | (o, σ'', tr') => (o, σ'', tr ++ tr')
    | (.error e, σ', tr) => (some e, σ', tr)

/-- Per-file body shared verbatim between the directory loop (lines 101–130)
and the archive loop (lines 252–281): parse, keep files with a root node,
check the package-name agreement, run the declaration pass (with its
sub-imports), and record the pending nodes under the effective package
path `effectivePkg rPath importPath`. -/
def processSource (env : Env) (sub : Sub) (dir rPath2 importPath : String)
    (skipTest : Bool) (name content : String) (st : LoopSt) :
    (Option Err) × LoopSt × List Ev :=
  match env.ast content name with
  | .error e => (some e, st, [Ev.parse name])
  | .ok (_pname, none) => (none, st, [Ev.parse name])
  | .ok (pname, some root) =>
    if st.pkgName ≠ "" ∧ st.pkgName ≠ pname ∧ skipTest then
      (some (pkgConflictMsg st.pkgName pname dir), st, [Ev.parse name])
    else
      let pk := if st.pkgName = "" then pname else st.pkgName
      let rns := st.rootNodes ++ [root]
      let subRPath := effectivePkg rPath2 importPath
      match subImports sub skipTest (env.nodeImports root) st.interp with
      | (some e, σ', tr) =>
        (some e, ⟨σ', pk, rns, st.revisit⟩, Ev.parse name :: tr)
      | (none, σ', tr) =>
        match env.gta root subRPath importPath (σ'.scopes importPath) with
        | .error e =>
          (some e, ⟨σ', pk, rns, st.revisit⟩, Ev.parse name :: tr ++ [Ev.declareFile root])
        | .ok (sym, pending) =>
          let σ'' := { σ' with scopes := upd σ'.scopes importPath sym }
          (none, ⟨σ'', pk, rns, revisitAdd st.revisit subRPath pending⟩,
            Ev.parse name :: tr ++ [Ev.declareFile root])

/-- The parse loop of `importSrc` over a directory listing (lines 89–130):
filter with `skipFile`, read each file and process it. -/
def parseLoop (env : Env) (sub : Sub) (dir rPath2 importPath : String) (skipTest : Bool) :
    List String → LoopSt → (Option Err) × LoopSt × List Ev
  | [], st => (none, st, [])
  | f :: rest, st =>
    if env.skipFile f skipTest then parseLoop env sub dir rPath2 importPath skipTest rest st
    else
      match env.readFile (goJoin2 dir f) with
      | .error e => (some e, st, [Ev.readFile (goJoin2 dir f)])
      | .ok content =>
        match processSource env sub dir rPath2 importPath skipTest (goJoin2 dir f) content st with
        | (some e, st', tr) => (some e, st', Ev.readFile (goJoin2 dir f) :: tr)
        | (none, st', tr) =>
          match parseLoop env sub dir rPath2 importPath skipTest rest st' with
          | (o, st'', tr') => (o, st'', Ev.readFile (goJoin2 dir f) :: tr ++ tr')

/-- The revisit loop (lines 132–137): one `gtaRetry` per partition. -/
def retryLoop (env : Env) (importPath : String) :
    List (String × List node) → Interpreter → (Option Err) × Interpreter × List Ev
  | [], σ => (none, σ, [])
  | (_, ns) :: rest, σ =>
    match env.gtaRetry ns importPath (σ.scopes importPath) with
    | .error e => (some e, σ, [Ev.retry importPath])
    | .ok sym =>
      match retryLoop env importPath rest { σ with scopes := upd σ.scopes importPath sym } with
      | (o, σ', tr) => (o, σ', Ev.retry importPath :: tr)

/-- The lowering loop (lines 139–146): `cfg` on every root node, collecting
init nodes in file order. -/
def cfgLoop (env : Env) (importPath : String) :
    List node → (Option Err) × List node × List Ev
  | [] => (none, [], [])
  | r :: rest =>
    match env.cfg r importPath with
    | .error e => (some e, [], [Ev.lower r importPath])
    | .ok ns =>
      match cfgLoop env importPath rest with
      | (o, acc, tr) => (o, ns ++ acc, Ev.lower r importPath :: tr)

/-- The entry-point wiring loop (lines 160–166): `genRun` then
`interp.run(n, nil)` per root node, aborting on the first `genRun` error. -/
def wiringLoop (env : Env) : List node → (Option Err) × List Ev
  | [] => (none, [])
  | r :: rest =>
    match env.genRun r with
    | some e => (some e, [])
    | none =>
      match wiringLoop env rest with
      | (o, tr) => (o, Ev.wiring r :: tr)

/-- Lines 175–178: `main` is appended to the init-node list when the package
is the entry package, its symbol table has a `main` symbol and tests are
skipped. -/
def mainAug (gs : SymTable) (pkgName : String) (skipTest : Bool) (initNodes : List node) :
    List node :=
  match List.lookup mainID gs with
  | some m => if pkgName = mainID ∧ skipTest then initNodes ++ [m] else initNodes
  | none => initNodes

/-- Lines 150–158: `gs := interp.scopes[importPath]` is read and the package
is recorded in `srcPkg` and `pkgNames` (the frame resize under its lock leaves
these maps untouched). -/
def registerPkg (σ : Interpreter) (importPath pkgName : String) : Interpreter :=
  { σ with srcPkg := upd σ.srcPkg importPath (some (σ.scopes importPath)),
           pkgNames := upd σ.pkgNames importPath (some pkgName) }

/-- Registration and initialization (lines 148–184): record the package in
`srcPkg` / `pkgNames`, then wire entry points, run the combined global-vars
node (generated from `gs = σ.scopes importPath`), append `main` to the init
list for an entry package built with tests skipped, and run all init nodes.
Failures here occur after registration. -/
def importFinish (env : Env) (importPath pkgName : String) (skipTest : Bool)
    (rootNodes initNodes : List node) (σ : Interpreter) :
    (Except Err String) × Interpreter × List Ev :=
  match wiringLoop env rootNodes with
  | (some e, tr) => (.error e, registerPkg σ importPath pkgName, tr)
  | (none, tr) =>
    match env.genGlobalVars rootNodes (σ.scopes importPath) with
    | .error e => (.error e, registerPkg σ importPath pkgName, tr)
    | .ok _ =>
      (.ok pkgName, registerPkg σ importPath pkgName,
        tr ++ Ev.globals importPath ::
          (mainAug (σ.scopes importPath) pkgName skipTest initNodes).map Ev.initRun)

/-- The pre-registration pipeline of `importSrc` (lines 51–146): resolve,
cycle-check and mark, list the directory, parse/declare every file, retry the
pending declarations and lower every root node. On success it returns the
package name, the root nodes, the collected init nodes, the state and the
trace; on failure the error with the state and trace at that point. -/
def importLoad (env : Env) (sub : Sub) (σ : Interpreter)
    (rPath importPath : String) (skipTest : Bool) :
    Except (Err × Interpreter × List Ev) (String × List node × List node × Interpreter × List Ev) :=
  match resolveDir env σ.name rPath importPath with
  | .error e => .error (e, σ, [])
  | .ok (dir, rPath2) =>
    if σ.rdir importPath then .error (importCycleMsg importPath, σ, [])
    else
      match env.readDir dir with
      | .error e => .error (e, { σ with rdir := upd σ.rdir importPath true }, [Ev.readDir dir])
      | .ok files =>
        match parseLoop env sub dir rPath2 importPath skipTest files
            ⟨{ σ with rdir := upd σ.rdir importPath true }, "", [], []⟩ with
        | (some e, st, tr) => .error (e, st.interp, Ev.readDir dir :: tr)
        | (none, st, tr) =>
          match retryLoop env importPath st.revisit st.interp with
          | (some e, σ2, tr2) => .error (e, σ2, Ev.readDir dir :: tr ++ tr2)
          | (none, σ2, tr2) =>
            match cfgLoop env importPath st.rootNodes with
            | (some e, _, tr3) => .error (e, σ2, Ev.readDir dir :: tr ++ tr2 ++ tr3)
            | (none, initNodes, tr3) =>
              .ok (st.pkgName, st.rootNodes, initNodes, σ2,
                Ev.readDir dir :: tr ++ tr2 ++ tr3)

/-- One unfolding of `importSrc` (lines 39–185): the `srcPkg` cache check,
then the load pipeline, then registration + initialization. -/
def importSrcBody (env : Env) (sub : Sub) (σ : Interpreter)
    (rPath importPath : String) (skipTest : Bool) : ImpResult :=
  match σ.srcPkg importPath with
  | some _ =>
    match σ.pkgNames importPath with
    | none => (.error (inconsistentMsg importPath), σ, [])
    | some name => (.ok name, σ, [])
  | none =>
    match importLoad env sub σ rPath importPath skipTest with
    | .error (e, σ', tr) => (.error e, σ', tr)
    | .ok (pkgName, rootNodes, initNodes, σ2, tr) =>
      match importFinish env importPath pkgName skipTest rootNodes initNodes σ2 with
      | (out, σ3, tr2) => (out, σ3, tr ++ tr2)

/-- `importSrc`, fuel-indexed: the fuel bounds the depth of the sub-import
recursion performed by the declaration pass. -/
def importSrc (env : Env) : Nat → Interpreter → String → String → Bool → ImpResult
  | 0, σ, _, _, _ => (.error fuelMsg, σ, [])
  | fuel + 1, σ, rPath, importPath, skipTest =>
    importSrcBody env (fun a b c d => importSrc env fuel a b c d) σ rPath importPath skipTest

/-- A sequence of further import calls (arbitrary fuel, rPath, path, skipTest
per call), returning the final state. -/
def runImports (env : Env) : List (Nat × String × String × Bool) → Interpreter → Interpreter
  | [], σ => σ
  | (fl, rp, ip, sk) :: rest, σ =>
    runImports env rest (importSrc env fl σ rp ip sk).2.1

/-! ## The archive variant -/

/-- One entry of the tar stream as `tar.Reader.Next` delivers it: a header of
some type flag with the entry's content, or a tar-format error (`Next`
returning `nil, err` with `err ≠ io.EOF`). End of stream (`io.EOF`) is the end
of the list. -/
inductive TarItem where
  | dirEntry (name : String)
  | regEntry (name : String) (content : String)
  | otherEntry (name : String)
  | tarErr (e : Err)
deriving DecidableEq, Repr

/-- Outcome of `importSrcArchive`: Go's `(string, error)` return, or a runtime
panic (a nil `*tar.Header` dereference, reachable because the loop discards
the error `tar.Reader.Next` reports and falls through to
`switch header.Typeflag`). -/
inductive ArchOut where
  | ok (s : String)
  | err (e : Err)
  | panik
deriving DecidableEq, Repr

/-- Outcome of the archive parse loop. -/
inductive AOut where
  | done
  | fail (e : Err)
  | panik
deriving DecidableEq, Repr

/-- The archive parse loop (lines 229–283). Directory entries and unknown
type flags fall through the `switch` and are skipped; regular files run the
shared per-file body; a tar error is formatted by `fmt.Errorf` whose result is
discarded, after which `header.Typeflag` dereferences the nil header. -/
def archLoop (env : Env) (sub : Sub) (dir rPath2 importPath : String) (skipTest : Bool) :
    List TarItem → LoopSt → AOut × LoopSt × List Ev
  | [], st => (.done, st, [])
  | .tarErr _ :: _, st => (.panik, st, [])
  | .dirEntry _ :: rest, st => archLoop env sub dir rPath2 importPath skipTest rest st
  | .otherEntry _ :: rest, st => archLoop env sub dir rPath2 importPath skipTest rest st
  | .regEntry f content :: rest, st =>
    if env.skipFile f skipTest then archLoop env sub dir rPath2 importPath skipTest rest st
    else
      match processSource env sub dir rPath2 importPath skipTest (goJoin2 dir f) content st with
      | (some e, st', tr) => (.fail e, st', tr)
      | (none, st', tr) =>
        match archLoop env sub dir rPath2 importPath skipTest rest st' with
        | (o, st'', tr') => (o, st'', tr ++ tr')

/-- `importSrcArchive` (lines 187–338): `rPath` and `importPath` are fixed to
`"."` and `"/"`; resolution runs as in `importSrc`, the visiting marker is set
without the cycle check and without the registry short-circuit, the gzip layer
is opened (its failure propagates), the tar entries are consumed, and the rest
of the pipeline is the same code as in `importSrc`. The gzip+tar input is the
decoded stream: `Except.error` for a gzip.NewReader failure, otherwise the
item list. -/
def importSrcArchive (env : Env) (fuel : Nat) (σ : Interpreter)
    (input : Except Err (List TarItem)) (skipTest : Bool) :
    ArchOut × Interpreter × List Ev :=
  match resolveDir env σ.name "." "/" with
  | .error e => (.err e, σ, [])
  | .ok (dir, rPath2) =>
    match input with
    | .error e => (.err e, { σ with rdir := upd σ.rdir "/" true }, [])
    | .ok items =>
      match archLoop env (fun a b c d => importSrc env fuel a b c d)
          dir rPath2 "/" skipTest items
          ⟨{ σ with rdir := upd σ.rdir "/" true }, "", [], []⟩ with
      | (.panik, st, tr) => (.panik, st.interp, tr)
      | (.fail e, st, tr) => (.err e, st.interp, tr)
      | (.done, st, tr) =>
        match retryLoop env "/" st.revisit st.interp with
        | (some e, σ2, tr2) => (.err e, σ2, tr ++ tr2)
        | (none, σ2, tr2) =>
          match cfgLoop env "/" st.rootNodes with
          | (some e, _, tr3) => (.err e, σ2, tr ++ tr2 ++ tr3)
          | (none, initNodes, tr3) =>
            match importFinish env "/" st.pkgName skipTest st.rootNodes initNodes σ2 with
            | (.ok s, σ3, tr4) => (.ok s, σ3, tr ++ tr2 ++ tr3 ++ tr4)
            | (.error e, σ3, tr4) => (.err e, σ3, tr ++ tr2 ++ tr3 ++ tr4)

/-- The injection of `importSrc` outcomes into archive outcomes. -/
def toArch : Except Err String → ArchOut
  | .ok s => .ok s
  | .error e => .err e

/-! ## Lemmas about `previousRoot` (claim C9) -/

lemma vendorScan_append (xs : List String) (y : String) :
    ∀ n, n ≤ xs.length → vendorScan (xs ++ [y]) n = vendorScan xs n := by
  intro n
  induction n with
  | zero => intro _; rfl
  | succ i ih =>
    intro h
    have hi : i < xs.length := h
    simp only [vendorScan]
    rw [List.getD_append _ _ _ _ hi]
    split
    · rfl
    · exact ih (Nat.le_of_lt hi)

lemma lastVendorIdxSpec_append (xs : List String) (y : String) :
    lastVendorIdxSpec (xs ++ [y]) =
      if y = "vendor" then some xs.length else lastVendorIdxSpec xs := by
  induction xs with
  | nil =>
    simp only [List.nil_append, lastVendorIdxSpec]
    split <;> rfl
  | cons s rest ih =>
    by_cases hy : y = "vendor"
    · subst hy
      simp [lastVendorIdxSpec, ih]
    · simp [lastVendorIdxSpec, ih, hy]

lemma vendorScan_eq_spec (xs : List String) :
    vendorScan xs xs.length = (lastVendorIdxSpec xs).getD 0 := by
  induction xs using List.reverseRecOn with
  | nil => rfl
  | append_singleton l y ih =>
    rw [lastVendorIdxSpec_append]
    have hlen : (l ++ [y]).length = l.length + 1 := by simp
    rw [hlen]
    simp only [vendorScan]
    have hget : (l ++ [y]).getD l.length "" = y := by
      rw [List.getD_append_right _ _ _ _ (Nat.le_refl _)]
      simp [List.getD]
    rw [hget]
    by_cases hy : y = "vendor"
    · simp [hy]
    · rw [if_neg hy, if_neg hy, vendorScan_append _ _ _ (Nat.le_refl _), ih]

lemma lastVendorIdxSpec_lt (xs : List String) :
    ∀ i, lastVendorIdxSpec xs = some i → i < xs.length := by
  induction xs with
  | nil => intro i h; cases h
  | cons s rest ih =>
    intro i h
    simp only [lastVendorIdxSpec] at h
    revert h
    split
    · next j hj =>
      intro h
      cases h
      exact Nat.succ_lt_succ (ih j hj)
    · split
      · intro h; cases h; simp
      · intro h; cases h

/-! ## Lemmas about `effectivePkg` (claim C10) -/

lemma epLoop_stuck (sr : List String) :
    ∀ rev i st, st.prevRootIndex ≠ st.rootIndex →
      (epLoop sr rev i st).result = st.result := by
  intro rev
  induction rev with
  | nil => intro i st _; rfl
  | cons part rest ih =>
    intro i st h
    by_cases hA : 0 < (sr.length : Int) - 1 - (st.rootIndex : Int) ∧
        part = sr.getD ((sr.length : Int) - 1 - (st.rootIndex : Int)).toNat "" ∧ i ≠ 0
    · rw [epLoop, if_pos hA]
      exact ih (i + 1) ⟨st.rootIndex + 1, st.rootIndex, st.result⟩ (by simp)
    · rw [epLoop, if_neg hA, if_neg h]
      exact ih (i + 1) st h

lemma epLoop_take (sr : List String) :
    ∀ rev i st, st.prevRootIndex = st.rootIndex →
      ∃ k, (epLoop sr rev i st).result = st.result ++ rev.take k := by
  intro rev
  induction rev with
  | nil => intro i st _; exact ⟨0, by simp [epLoop]⟩
  | cons part rest ih =>
    intro i st h
    by_cases hA : 0 < (sr.length : Int) - 1 - (st.rootIndex : Int) ∧
        part = sr.getD ((sr.length : Int) - 1 - (st.rootIndex : Int)).toNat "" ∧ i ≠ 0
    · refine ⟨0, ?_⟩
      rw [epLoop, if_pos hA]
      rw [epLoop_stuck sr rest (i + 1) ⟨st.rootIndex + 1, st.rootIndex, st.result⟩ (by simp)]
      simp
    · rw [epLoop, if_neg hA, if_pos h]
      obtain ⟨k, hk⟩ := ih (i + 1) ⟨st.rootIndex, st.prevRootIndex, st.result ++ [part]⟩ h
      exact ⟨k + 1, by simpa [List.append_assoc] using hk⟩

lemma reverse_take_reverse {α : Type} (l : List α) (k : Nat) :
    (l.reverse.take k).reverse = l.drop (l.length - k) := by
  rcases Nat.le_total k l.length with h | h
  · have h1 : l.reverse = (l.drop (l.length - k)).reverse ++ (l.take (l.length - k)).reverse := by
      rw [← List.reverse_append, List.take_append_drop]
    have h2 : (l.drop (l.length - k)).reverse.length = k := by
      simp [List.length_drop]
      omega
    rw [h1, List.take_left' h2, List.reverse_reverse]
  · have h0 : l.length - k = 0 := Nat.sub_eq_zero_of_le h
    rw [h0, List.drop_zero, List.take_of_length_le (by simpa using h), List.reverse_reverse]

/-- C9: for every root string, `previousRoot` returns the segments strictly
before the last segment equal to `"vendor"`, rejoined, and the empty string
when that segment is absent or at position 0; in particular on the three
spec examples. -/
theorem previousRoot_matches_spec :
    (∀ root, previousRoot root = previousRootSpec root) ∧
    previousRoot "a/vendor/b/vendor/c" = "a/vendor/b" ∧
    previousRoot "vendor/x" = "" ∧
    previousRoot "x" = "" := by
  refine ⟨?_, by decide, by decide, by decide⟩
  intro root
  show (if vendorScan (goSplit root) (goSplit root).length = 0 then ""
        else goJoinList ((goSplit root).take (vendorScan (goSplit root) (goSplit root).length)))
      = previousRootSpec root
  rw [vendorScan_eq_spec]
  unfold previousRootSpec
  cases h : lastVendorIdxSpec (goSplit root) with
  | none => simp [h]
  | some i =>
    cases i with
    | zero => simp [h]
    | succ j => simp [h]

/-- C10: for every root and path, `effectivePkg` appends to the root a
(possibly empty) suffix of the path's segment list — segments already matched
against the tail of the root are not repeated — and on the spec's example the
overlapping prefix is not duplicated. -/
theorem effectivePkg_appends_suffix :
    (∀ root path, ∃ k,
      effectivePkg root path =
        goJoin2 root (((goSplit path).drop k).foldl goJoin2 "")) ∧
    effectivePkg "a/vendor/b" "a/vendor/b/c" = "a/vendor/b/c" := by
  refine ⟨?_, by decide⟩
  intro root path
  obtain ⟨k, hk⟩ := epLoop_take (goSplit root) (goSplit path).reverse 0 ⟨0, 0, []⟩ rfl
  refine ⟨(goSplit path).length - k, ?_⟩
  show goJoin2 root
      ((epLoop (goSplit root) (goSplit path).reverse 0 ⟨0, 0, []⟩).result.reverse.foldl goJoin2 "")
    = _
  rw [hk]
  simp only [List.nil_append]
  rw [reverse_take_reverse (goSplit path) k]

/-! ## State-evolution lemmas for `importSrc`

`Keeps q σ σ'` collects what every import call preserves about the maps at a
fixed path `q`: the interpreter name, a set visiting marker, a registered
record together with its package name, and — for a path whose import is in
progress (marker set, record absent) — the continued absence of a record. -/

def Keeps (q : String) (σ σ' : Interpreter) : Prop :=
  σ'.name = σ.name ∧
  (σ.rdir q = true → σ'.rdir q = true) ∧
  (∀ v, σ.srcPkg q = some v → σ'.srcPkg q = some v ∧ σ'.pkgNames q = σ.pkgNames q) ∧
  (σ.rdir q = true → σ.srcPkg q = none →
    σ'.srcPkg q = none ∧ σ'.pkgNames q = σ.pkgNames q)

lemma keeps_rfl (q : String) (σ : Interpreter) : Keeps q σ σ :=
  ⟨rfl, fun h => h, fun _ h => ⟨h, rfl⟩, fun _ h => ⟨h, rfl⟩⟩

lemma keeps_trans {q : String} {σ σ' σ'' : Interpreter}
    (h1 : Keeps q σ σ') (h2 : Keeps q σ' σ'') : Keeps q σ σ'' := by
  obtain ⟨n1, r1, s1, z1⟩ := h1
  obtain ⟨n2, r2, s2, z2⟩ := h2
  refine ⟨n2.trans n1, fun h => r2 (r1 h), ?_, ?_⟩
  · intro v h
    obtain ⟨ha, hb⟩ := s1 v h
    obtain ⟨hc, hd⟩ := s2 v ha
    exact ⟨hc, hd.trans hb⟩
  · intro hr hn
    obtain ⟨ha, hb⟩ := z1 hr hn
    obtain ⟨hc, hd⟩ := z2 (r1 hr) ha
    exact ⟨hc, hd.trans hb⟩

lemma keeps_scopes (q : String) (σ : Interpreter) (s : String → SymTable) :
    Keeps q σ { σ with scopes := s } :=
  ⟨rfl, fun h => h, fun _ h => ⟨h, rfl⟩, fun _ h => ⟨h, rfl⟩⟩

lemma keeps_set_rdir (q : String) (σ : Interpreter) (p : String) :
    Keeps q σ { σ with rdir := upd σ.rdir p true } := by
  refine ⟨rfl, ?_, fun _ h => ⟨h, rfl⟩, fun _ h => ⟨h, rfl⟩⟩
  intro h
  show (if q = p then true else σ.rdir q) = true
  split
  · rfl
  · exact h

/-- A recursive entry point every unfolding of which evolves the state only in
the ways `Keeps` allows. -/
def GoodSub (sub : Sub) : Prop :=
  ∀ σ rp ip sk q, Keeps q σ (sub σ rp ip sk).2.1

lemma subImports_keeps {sub : Sub} (hg : GoodSub sub) (sk : Bool) :
    ∀ l σ q, Keeps q σ (subImports sub sk l σ).2.1 := by
  intro l
  induction l with
  | nil => intro σ q; exact keeps_rfl q σ
  | cons hd rest ih =>
    intro σ q
    obtain ⟨rp, ip⟩ := hd
    have hk := hg σ rp ip sk q
    rcases hs : sub σ rp ip sk with ⟨out, σ', tr⟩
    rw [hs] at hk
    cases out with
    | ok v =>
      rcases hr : subImports sub sk rest σ' with ⟨o2, σ2, tr2⟩
      have hk2 := ih σ' q
      rw [hr] at hk2
      simp only [subImports, hs, hr]
      exact keeps_trans hk hk2
    | error e =>
      simp only [subImports, hs]
      exact hk

lemma processSource_keeps {sub : Sub} (hg : GoodSub sub) (env : Env)
    (dir rPath2 importPath : String) (sk : Bool) (name content : String) (st : LoopSt) (q : String) :
    Keeps q st.interp (processSource env sub dir rPath2 importPath sk name content st).2.1.interp := by
  unfold processSource
  split
  · exact keeps_rfl q st.interp
  · exact keeps_rfl q st.interp
  · next pname root heq =>
    split
    · exact keeps_rfl q st.interp
    · have hsi := subImports_keeps hg sk (env.nodeImports root) st.interp q
      rcases hs : subImports sub sk (env.nodeImports root) st.interp with ⟨o, σ', tr⟩
      rw [hs] at hsi
      cases o with
      | some e => simp only [hs]; exact hsi
      | none =>
        simp only [hs]
        split
        · exact hsi
        · exact keeps_trans hsi (keeps_scopes q σ' _)

lemma parseLoop_keeps {sub : Sub} (hg : GoodSub sub) (env : Env)
    (dir rPath2 importPath : String) (sk : Bool) :
    ∀ files st q, Keeps q st.interp (parseLoop env sub dir rPath2 importPath sk files st).2.1.interp := by
  intro files
  induction files with
  | nil => intro st q; exact keeps_rfl q st.interp
  | cons f rest ih =>
    intro st q
    by_cases hskip : env.skipFile f sk
    · simp only [parseLoop, if_pos hskip]
      exact ih st q
    · simp only [parseLoop, if_neg hskip]
      split
      · exact keeps_rfl q st.interp
      · next content heq =>
        have hps := processSource_keeps hg env dir rPath2 importPath sk (goJoin2 dir f) content st q
        rcases hp : processSource env sub dir rPath2 importPath sk (goJoin2 dir f) content st
          with ⟨o, st', tr⟩
        rw [hp] at hps
        cases o with
        | some e => simp only [hp]; exact hps
        | none =>
          have hih := ih st' q
          rcases hr : parseLoop env sub dir rPath2 importPath sk rest st' with ⟨o2, st2, tr2⟩
          rw [hr] at hih
          simp only [hp, hr]
          exact keeps_trans hps hih

lemma retryLoop_fields (env : Env) (ip : String) :
    ∀ rv σ, (retryLoop env ip rv σ).2.1.name = σ.name ∧
      (retryLoop env ip rv σ).2.1.srcPkg = σ.srcPkg ∧
      (retryLoop env ip rv σ).2.1.pkgNames = σ.pkgNames ∧
      (retryLoop env ip rv σ).2.1.rdir = σ.rdir := by
  intro rv
  induction rv with
  | nil => intro σ; exact ⟨rfl, rfl, rfl, rfl⟩
  | cons hd rest ih =>
    intro σ
    obtain ⟨k, ns⟩ := hd
    simp only [retryLoop]
    split
    · exact ⟨rfl, rfl, rfl, rfl⟩
    · next sym heq =>
      rcases hr : retryLoop env ip rest { σ with scopes := upd σ.scopes ip sym } with ⟨o, σ', tr⟩
      have := ih { σ with scopes := upd σ.scopes ip sym }
      rw [hr] at this
      simp only [hr]
      exact this

lemma retryLoop_keeps (env : Env) (ip : String) (rv : List (String × List node))
    (σ : Interpreter) (q : String) : Keeps q σ (retryLoop env ip rv σ).2.1 := by
  obtain ⟨hn, hs, hp, hr⟩ := retryLoop_fields env ip rv σ
  exact ⟨hn, fun h => by rw [hr]; exact h, fun v h => ⟨by rw [hs]; exact h, by rw [hp]⟩,
    fun _ h => ⟨by rw [hs]; exact h, by rw [hp]⟩⟩

/-- The state carried by an `importLoad` result. -/
def loadState :
    Except (Err × Interpreter × List Ev) (String × List node × List node × Interpreter × List Ev) →
      Interpreter
  | .error (_, σ, _) => σ
  | .ok (_, _, _, σ, _) => σ

lemma importLoad_keeps {sub : Sub} (hg : GoodSub sub) (env : Env) (σ : Interpreter)
    (rp ip : String) (sk : Bool) (q : String) :
    Keeps q σ (loadState (importLoad env sub σ rp ip sk)) := by
  unfold importLoad
  split
  · exact keeps_rfl q σ
  · next dir rPath2 heq =>
    split
    · exact keeps_rfl q σ
    · split
      · exact keeps_trans (keeps_set_rdir q σ ip) (keeps_rfl q _)
      · next files hfiles =>
        have hmark : Keeps q σ { σ with rdir := upd σ.rdir ip true } := keeps_set_rdir q σ ip
        have hpl := parseLoop_keeps hg env dir rPath2 ip sk files
          ⟨{ σ with rdir := upd σ.rdir ip true }, "", [], []⟩ q
        rcases hp : parseLoop env sub dir rPath2 ip sk files
            ⟨{ σ with rdir := upd σ.rdir ip true }, "", [], []⟩ with ⟨o, st, tr⟩
        rw [hp] at hpl
        cases o with
        | some e => simp only [hp]; exact keeps_trans hmark hpl
        | none =>
          have hrt := retryLoop_keeps env ip st.revisit st.interp q
          rcases hr : retryLoop env ip st.revisit st.interp with ⟨o2, σ2, tr2⟩
          rw [hr] at hrt
          have hchain := keeps_trans hmark (keeps_trans hpl hrt)
          cases o2 with
          | some e => simp only [hp, hr]; exact hchain
          | none =>
            rcases hc : cfgLoop env ip st.rootNodes with ⟨o3, ins, tr3⟩
            cases o3 with
            | some e => simp only [hp, hr, hc]; exact hchain
            | none => simp only [hp, hr, hc]; exact hchain

/-- An `importLoad` on a path whose record is absent leaves it absent (no
registration happens before `importFinish`), whatever the outcome. -/
lemma importLoad_unregistered {sub : Sub} (hg : GoodSub sub) (env : Env) (σ : Interpreter)
    (rp ip : String) (sk : Bool) (h : σ.srcPkg ip = none) :
    (loadState (importLoad env sub σ rp ip sk)).srcPkg ip = none ∧
    (loadState (importLoad env sub σ rp ip sk)).pkgNames ip = σ.pkgNames ip := by
  unfold importLoad
  split
  · exact ⟨h, rfl⟩
  · next dir rPath2 heq =>
    split
    · exact ⟨h, rfl⟩
    · have hm1 : ({ σ with rdir := upd σ.rdir ip true }).rdir ip = true := by
        simp [upd]
      have hm2 : ({ σ with rdir := upd σ.rdir ip true }).srcPkg ip = none := h
      split
      · exact ⟨h, rfl⟩
      · next files hfiles =>
        have hpl := parseLoop_keeps hg env dir rPath2 ip sk files
          ⟨{ σ with rdir := upd σ.rdir ip true }, "", [], []⟩ ip
        rcases hp : parseLoop env sub dir rPath2 ip sk files
            ⟨{ σ with rdir := upd σ.rdir ip true }, "", [], []⟩ with ⟨o, st, tr⟩
        rw [hp] at hpl
        have hst := hpl.2.2.2 hm1 hm2
        cases o with
        | some e => simp only [hp]; exact ⟨hst.1, hst.2⟩
        | none =>
          have hrt := retryLoop_keeps env ip st.revisit st.interp ip
          rcases hr : retryLoop env ip st.revisit st.interp with ⟨o2, σ2, tr2⟩
          rw [hr] at hrt
          have hrd : st.interp.rdir ip = true := hpl.2.1 hm1
          have hσ2 := hrt.2.2.2 hrd hst.1
          have hfin : σ2.srcPkg ip = none ∧ σ2.pkgNames ip = σ.pkgNames ip :=
            ⟨hσ2.1, hσ2.2.trans hst.2⟩
          cases o2 with
          | some e => simp only [hp, hr]; exact hfin
          | none =>
            rcases hc : cfgLoop env ip st.rootNodes with ⟨o3, ins, tr3⟩
            cases o3 with
            | some e => simp only [hp, hr, hc]; exact hfin
            | none => simp only [hp, hr, hc]; exact hfin

/-- An `importLoad` of a path whose visiting marker is already set fails
without changing the state or emitting events — with the import-cycle error
whenever resolution succeeds. -/
lemma importLoad_visiting {sub : Sub} (env : Env) (σ : Interpreter)
    (rp ip : String) (sk : Bool) (h : σ.rdir ip = true) :
    (∃ e, importLoad env sub σ rp ip sk = .error (e, σ, [])) ∧
    (∀ dr, resolveDir env σ.name rp ip = .ok dr →
      importLoad env sub σ rp ip sk = .error (importCycleMsg ip, σ, [])) := by
  constructor
  · unfold importLoad
    split
    · next e heq => exact ⟨e, rfl⟩
    · rw [if_pos h]
      exact ⟨importCycleMsg ip, rfl⟩
  · intro dr hres
    unfold importLoad
    rw [hres]
    simp only [if_pos h]

/-- The state after `importFinish` is the input state with the package
registered. -/
lemma importFinish_interp (env : Env) (ip pk : String) (sk : Bool)
    (rns ins : List node) (σ : Interpreter) :
    (importFinish env ip pk sk rns ins σ).2.1 = registerPkg σ ip pk := by
  unfold importFinish
  rcases hw : wiringLoop env rns with ⟨o, tr⟩
  cases o with
  | some e => rfl
  | none =>
    cases hgv : env.genGlobalVars rns (σ.scopes ip) with
    | error e => rfl
    | ok n => rfl

lemma importSrc_succ (env : Env) (fuel : Nat) (σ : Interpreter) (rp ip : String) (sk : Bool) :
    importSrc env (fuel + 1) σ rp ip sk =
      importSrcBody env (fun a b c d => importSrc env fuel a b c d) σ rp ip sk := rfl

lemma importSrcBody_keeps {sub : Sub} (hg : GoodSub sub) (env : Env) (σ : Interpreter)
    (rp ip : String) (sk : Bool) (q : String) :
    Keeps q σ (importSrcBody env sub σ rp ip sk).2.1 := by
  unfold importSrcBody
  split
  · split
    · exact keeps_rfl q σ
    · exact keeps_rfl q σ
  · next hnone =>
    have hload := importLoad_keeps hg env σ rp ip sk q
    rcases hl : importLoad env sub σ rp ip sk with ⟨e, σ', tr⟩ | ⟨pk, rns, ins, σ2, tr⟩
    · rw [hl] at hload
      simp only [loadState] at hload
      simp only [hl]
      exact hload
    · rw [hl] at hload
      simp only [loadState] at hload
      simp only [hl]
      rcases hf : importFinish env ip pk sk rns ins σ2 with ⟨out, σ3, tr2⟩
      have hσ3 : σ3 = registerPkg σ2 ip pk := by
        have hfi := importFinish_interp env ip pk sk rns ins σ2
        rw [hf] at hfi
        exact hfi
      subst hσ3
      obtain ⟨hn, hr, hs, hz⟩ := hload
      refine ⟨hn, hr, ?_, ?_⟩
      · intro v hv
        by_cases hq : q = ip
        · rw [hq, hnone] at hv
          cases hv
        · have := hs v hv
          exact ⟨by simpa [registerPkg, upd, hq] using this.1,
            by simpa [registerPkg, upd, hq] using this.2⟩
      · intro hrd hnn
        by_cases hq : q = ip
        · exfalso
          obtain ⟨e, hcontra⟩ := (importLoad_visiting env σ rp ip sk (hq ▸ hrd)).1
          rw [hcontra] at hl
          cases hl
        · have := hz hrd hnn
          exact ⟨by simpa [registerPkg, upd, hq] using this.1,
            by simpa [registerPkg, upd, hq] using this.2⟩

/-- Every `importSrc` call evolves the state only in the ways `Keeps`
allows. -/
lemma importSrc_keeps (env : Env) :
    ∀ fuel, GoodSub (fun a b c d => importSrc env fuel a b c d) := by
  intro fuel
  induction fuel with
  | zero => intro σ rp ip sk q; exact keeps_rfl q σ
  | succ n ih =>
    intro σ rp ip sk q
    exact importSrcBody_keeps ih env σ rp ip sk q

lemma importSrc_keeps' (env : Env) (fuel : Nat) (σ : Interpreter) (rp ip : String)
    (sk : Bool) (q : String) : Keeps q σ (importSrc env fuel σ rp ip sk).2.1 :=
  importSrc_keeps env fuel σ rp ip sk q

/-- A registered package short-circuits: `importSrc` answers from the
registry, leaves the state untouched and emits no events at all. -/
lemma importSrc_cached (env : Env) (fuel : Nat) (σ : Interpreter) (rp ip : String) (sk : Bool)
    (v : SymTable) (name : String) (h1 : σ.srcPkg ip = some v) (h2 : σ.pkgNames ip = some name) :
    importSrc env (fuel + 1) σ rp ip sk = (.ok name, σ, []) := by
  rw [importSrc_succ]
  unfold importSrcBody
  simp [h1, h2]

lemma wiringLoop_none (env : Env) :
    ∀ ns, (wiringLoop env ns).1 = none → (wiringLoop env ns).2 = ns.map Ev.wiring := by
  intro ns
  induction ns with
  | nil => intro _; rfl
  | cons r rest ih =>
    intro h
    unfold wiringLoop at h ⊢
    rcases hg : env.genRun r with _ | e
    · rw [hg] at h
      have h' : (wiringLoop env rest).1 = none := h
      show Ev.wiring r :: (wiringLoop env rest).2 = List.map Ev.wiring (r :: rest)
      rw [List.map_cons, ih h']
    · rw [hg] at h
      simp at h

/-- A successful `importFinish` returns the package name and emits exactly the
wiring events, then the global-vars event, then the init runs (with `main`
appended by `mainAug`). -/
lemma importFinish_ok_shape (env : Env) (ip pk : String) (sk : Bool)
    (rns ins : List node) (σ : Interpreter) (s : String)
    (h : (importFinish env ip pk sk rns ins σ).1 = .ok s) :
    s = pk ∧
    (importFinish env ip pk sk rns ins σ).2.2 =
      rns.map Ev.wiring ++ Ev.globals ip ::
        (mainAug (σ.scopes ip) pk sk ins).map Ev.initRun := by
  unfold importFinish at h ⊢
  rcases hw : wiringLoop env rns with ⟨o, tr⟩
  rw [hw] at h
  cases o with
  | some e => simp at h
  | none =>
    cases hgv : env.genGlobalVars rns (σ.scopes ip) with
    | error e =>
      rw [hgv] at h
      simp at h
    | ok n =>
      rw [hgv] at h
      have htr : tr = rns.map Ev.wiring := by
        have hw1 : (wiringLoop env rns).1 = none := by rw [hw]
        have h2 := wiringLoop_none env rns hw1
        rw [hw] at h2
        exact h2
      have hpk : (Except.ok pk : Except Err String) = .ok s := h
      refine ⟨(Except.ok.inj hpk).symm, ?_⟩
      show tr ++ Ev.globals ip :: (mainAug (σ.scopes ip) pk sk ins).map Ev.initRun = _
      rw [htr]

/-- A successful `importSrc` leaves the path registered under the returned
name (either it was already registered, or `importFinish` registered it). -/
lemma importSrc_ok_registered (env : Env) (fuel : Nat) (σ : Interpreter) (rP P : String)
    (sk : Bool) (name : String) (h : (importSrc env fuel σ rP P sk).1 = .ok name) :
    (∃ gs, (importSrc env fuel σ rP P sk).2.1.srcPkg P = some gs) ∧
    (importSrc env fuel σ rP P sk).2.1.pkgNames P = some name := by
  cases fuel with
  | zero => simp [importSrc] at h
  | succ n =>
    rw [importSrc_succ] at h ⊢
    unfold importSrcBody at h ⊢
    rcases hc : σ.srcPkg P with _ | v
    · rcases hl : importLoad env (fun a b c d => importSrc env n a b c d) σ rP P sk
        with ⟨e, σ', tr⟩ | ⟨pk, rns, ins, σ2, tr⟩
      · rw [hc, hl] at h
        simp at h
      · rw [hc, hl] at h
        have hfin : (importFinish env P pk sk rns ins σ2).1 = Except.ok name := h
        have hshape := importFinish_ok_shape env P pk sk rns ins σ2 name hfin
        have hname : name = pk := hshape.1
        show (∃ gs, (importFinish env P pk sk rns ins σ2).2.1.srcPkg P = some gs) ∧
          (importFinish env P pk sk rns ins σ2).2.1.pkgNames P = some name
        rw [importFinish_interp env P pk sk rns ins σ2]
        subst hname
        constructor
        · exact ⟨σ2.scopes P, by simp [registerPkg, upd]⟩
        · simp [registerPkg, upd]
    · rcases hn : σ.pkgNames P with _ | nm
      · rw [hc, hn] at h
        simp at h
      · rw [hc, hn] at h
        have hnm : nm = name := Except.ok.inj h
        subst hnm
        exact ⟨⟨v, hc⟩, hn⟩

/-- Any sequence of further imports evolves the state only in the ways `Keeps`
allows. -/
lemma runImports_keeps (env : Env) :
    ∀ later σ q, Keeps q σ (runImports env later σ) := by
  intro later
  induction later with
  | nil => intro σ q; exact keeps_rfl q σ
  | cons hd rest ih =>
    intro σ q
    obtain ⟨fl, rp, ip, sk⟩ := hd
    exact keeps_trans (importSrc_keeps' env fl σ rp ip sk q) (ih _ q)

/-- C1: a `PackageRecord` is created at most once per import path. A
successful import leaves the path registered under the returned name, and
every later call of the import entry point for that path — after any sequence
of other imports in between — answers that name directly from the registry,
with the state untouched and an empty event trace (so no file of the package
is re-read, re-parsed, re-declared or re-lowered). -/
theorem import_registered_once_then_cached (env : Env) (fuel : Nat) (σ : Interpreter)
    (rP P : String) (sk : Bool) (name : String)
    (h : (importSrc env fuel σ rP P sk).1 = .ok name) :
    (∃ gs, (importSrc env fuel σ rP P sk).2.1.srcPkg P = some gs) ∧
    (importSrc env fuel σ rP P sk).2.1.pkgNames P = some name ∧
    ∀ later fuel2 rP2 sk2,
      importSrc env (fuel2 + 1) (runImports env later (importSrc env fuel σ rP P sk).2.1) rP2 P sk2
        = (.ok name, runImports env later (importSrc env fuel σ rP P sk).2.1, []) := by
  obtain ⟨⟨gs, hgs⟩, hname⟩ := importSrc_ok_registered env fuel σ rP P sk name h
  refine ⟨⟨gs, hgs⟩, hname, ?_⟩
  intro later fuel2 rP2 sk2
  have hk := runImports_keeps env later (importSrc env fuel σ rP P sk).2.1 P
  obtain ⟨hsrc, hpkg⟩ := hk.2.2.1 gs hgs
  exact importSrc_cached env fuel2 _ rP2 P sk2 gs name hsrc (hpkg.trans hname)

/-- A call on a path that is mid-import (marker set, not yet registered,
resolvable) returns exactly the import-cycle error, with the state untouched
and no events emitted. -/
lemma importSrc_cycle (env : Env) (fuel : Nat) (σ : Interpreter) (rP P : String) (sk : Bool)
    (dr : String × String)
    (hnone : σ.srcPkg P = none) (hvis : σ.rdir P = true)
    (hres : resolveDir env σ.name rP P = .ok dr) :
    importSrc env (fuel + 1) σ rP P sk = (.error (importCycleMsg P), σ, []) := by
  have hload := (@importLoad_visiting (fun a b c d => importSrc env fuel a b c d)
    env σ rP P sk hvis).2 dr hres
  rw [importSrc_succ]
  unfold importSrcBody
  rw [hnone, hload]

/-- C2: an import that re-enters an import path currently mid-import (its
visiting marker set, its record not yet registered) fails with the
cycle error without reading or parsing anything; and no import call at all
registers a record for a mid-import path — hence after the failed import
every package on the cycle (each of which is mid-import when the re-entry
is detected) is still unregistered. -/
theorem reentrant_import_cycle (env : Env) :
    (∀ fuel σ rP P sk dr, σ.srcPkg P = none → σ.rdir P = true →
      resolveDir env σ.name rP P = .ok dr →
      importSrc env (fuel + 1) σ rP P sk = (.error (importCycleMsg P), σ, [])) ∧
    (∀ fuel σ rP P sk Q, σ.rdir Q = true → σ.srcPkg Q = none →
      (importSrc env fuel σ rP P sk).2.1.srcPkg Q = none) := by
  constructor
  · intro fuel σ rP P sk dr h1 h2 h3
    exact importSrc_cycle env fuel σ rP P sk dr h1 h2 h3
  · intro fuel σ rP P sk Q h1 h2
    exact ((importSrc_keeps' env fuel σ rP P sk Q).2.2.2 h1 h2).1

/-- C3 (amended): a failure at any stage before registration — resolving,
loading, declaring, retrying or lowering, i.e. any error of the
pre-registration pipeline `importLoad` — propagates as the error of the whole
call and leaves the registry maps (`srcPkg`, `pkgNames`) unchanged for
that import path. A failure during the initialization phase, by contrast,
happens after registration (see the counterexample). -/
theorem preregistration_failure_leaves_unregistered (env : Env) (fuel : Nat) (σ : Interpreter)
    (rP P : String) (sk : Bool) (e : Err) (σ' : Interpreter) (tr : List Ev)
    (hnone : σ.srcPkg P = none)
    (hload : importLoad env (fun a b c d => importSrc env fuel a b c d) σ rP P sk =
      .error (e, σ', tr)) :
    importSrc env (fuel + 1) σ rP P sk = (.error e, σ', tr) ∧
    σ'.srcPkg P = none ∧ σ'.pkgNames P = σ.pkgNames P := by
  have hg : GoodSub (fun a b c d => importSrc env fuel a b c d) := importSrc_keeps env fuel
  have hur := importLoad_unregistered hg env σ rP P sk hnone
  rw [hload] at hur
  simp only [loadState] at hur
  constructor
  · rw [importSrc_succ]
    unfold importSrcBody
    rw [hnone, hload]
  · exact hur

/-- C8 (amended): the visiting marker, once set, is never cleared by any
call of the importer, failed or not. After an import of a path fails
while the marker is set and *before registration* (the record still absent),
a second attempt to import that path reports the import-cycle error instead
of retrying. (When the failure happens after registration — during
initialization — the second attempt instead answers the registered name; see
the counterexample.) -/
theorem visiting_marker_never_cleared (env : Env) :
    (∀ fuel σ rP P sk q, σ.rdir q = true → (importSrc env fuel σ rP P sk).2.1.rdir q = true) ∧
    (∀ fuel σ rP P sk e, (importSrc env (fuel + 1) σ rP P sk).1 = .error e →
      ∀ fuel2 rP2 sk2 dr,
        (importSrc env (fuel + 1) σ rP P sk).2.1.rdir P = true →
        (importSrc env (fuel + 1) σ rP P sk).2.1.srcPkg P = none →
        resolveDir env (importSrc env (fuel + 1) σ rP P sk).2.1.name rP2 P = .ok dr →
        importSrc env (fuel2 + 1) (importSrc env (fuel + 1) σ rP P sk).2.1 rP2 P sk2 =
          (.error (importCycleMsg P), (importSrc env (fuel + 1) σ rP P sk).2.1, [])) := by
  constructor
  · intro fuel σ rP P sk q h
    exact (importSrc_keeps' env fuel σ rP P sk q).2.1 h
  · intro fuel σ rP P sk e _herr fuel2 rP2 sk2 dr hrd hnone hres
    exact importSrc_cycle env fuel2 _ rP2 P sk2 dr hnone hrd hres

/-! ## Concrete environments for witnesses and counterexamples -/

/-- A benign environment: every directory lists one file `a.go`, parsing to
package `"p"` with one declared symbol, no sub-imports, one init node, and a
filesystem on which every resolution probe succeeds. -/
def envOk : Env where
  getwd := .ok "/w"
  gopath := "/g"
  stat := fun _ => true
  ctxImport := fun _ => .error "no build context"
  readDir := fun _ => .ok ["a.go"]
  skipFile := fun _ _ => false
  readFile := fun _ => .ok "package p"
  ast := fun _ _ => .ok ("p", some ⟨0⟩)
  nodeImports := fun _ => []
  gta := fun _ _ _ s => .ok (s ++ [("x", ⟨1⟩)], [])
  gtaRetry := fun _ _ s => .ok s
  cfg := fun _ _ => .ok [⟨2⟩]
  genRun := fun _ => none
  genGlobalVars := fun _ _ => .ok ⟨3⟩

/-- The pristine interpreter state. -/
def sigma0 : Interpreter where
  name := "main.go"
  srcPkg := fun _ => none
  pkgNames := fun _ => none
  rdir := fun _ => false
  scopes := fun _ => []

/-- `envOk` with entry-point wiring generation failing: an error in the
initialization phase, after registration. -/
def envBoom : Env := { envOk with genRun := fun _ => some "boom" }

/-- `envOk` with the declaration pass failing: an error before
registration. -/
def envGta : Env := { envOk with gta := fun _ _ _ _ => .error "undefined: zork" }

theorem import_registered_once_then_cached_witness :
    (importSrc envOk 2 sigma0 "r" "x" true).1 = .ok "p" ∧
    (importSrc envOk 2 sigma0 "r" "x" true).2.1.pkgNames "x" = some "p" ∧
    importSrc envOk 1 (runImports envOk [(2, "zz", "other", false)]
        (importSrc envOk 2 sigma0 "r" "x" true).2.1) "other-rpath" "x" false =
      (.ok "p", runImports envOk [(2, "zz", "other", false)]
        (importSrc envOk 2 sigma0 "r" "x" true).2.1, []) := by
  have h : (importSrc envOk 2 sigma0 "r" "x" true).1 = .ok "p" := by decide
  have hmain := import_registered_once_then_cached envOk 2 sigma0 "r" "x" true "p" h
  exact ⟨h, hmain.2.1, hmain.2.2 [(2, "zz", "other", false)] 0 "other-rpath" false⟩

theorem reentrant_import_cycle_witness :
    importSrc envOk 2 { sigma0 with rdir := fun q => q == "c" } "r" "c" true =
      (.error (importCycleMsg "c"), { sigma0 with rdir := fun q => q == "c" }, []) ∧
    (importSrc envOk 2 { sigma0 with rdir := fun q => q == "c" } "r" "other" true).2.1.srcPkg "c"
      = none := by
  constructor
  · exact (reentrant_import_cycle envOk).1 1 _ "r" "c" true ("/g/src/r/vendor/c", "r/vendor")
      rfl (by decide) (by decide)
  · exact (reentrant_import_cycle envOk).2 2 _ "r" "other" true "c" (by decide) rfl

/-- C3 counterexample: with the wiring generator failing, the import returns
an error from the initializing stage even though the package has already been
registered — `srcPkg` and `pkgNames` are populated for the path. This refutes
"a failure at any pipeline stage (including initializing) leaves the package
unregistered". -/
theorem init_failure_leaves_registered :
    (importSrc envBoom 2 sigma0 "r" "x" true).1 = .error "boom" ∧
    ((importSrc envBoom 2 sigma0 "r" "x" true).2.1.srcPkg "x").isSome = true ∧
    (importSrc envBoom 2 sigma0 "r" "x" true).2.1.pkgNames "x" = some "p" := by
  decide

theorem preregistration_failure_leaves_unregistered_witness :
    importSrc envGta 2 sigma0 "r" "x" true =
      (.error "undefined: zork", { sigma0 with rdir := upd sigma0.rdir "x" true },
        [Ev.readDir "/g/src/r/vendor/x", Ev.readFile "/g/src/r/vendor/x/a.go",
         Ev.parse "/g/src/r/vendor/x/a.go", Ev.declareFile ⟨0⟩]) ∧
    ({ sigma0 with rdir := upd sigma0.rdir "x" true } : Interpreter).srcPkg "x" = none := by
  have hmain := preregistration_failure_leaves_unregistered envGta 1 sigma0 "r" "x" true
    "undefined: zork" { sigma0 with rdir := upd sigma0.rdir "x" true }
    [Ev.readDir "/g/src/r/vendor/x", Ev.readFile "/g/src/r/vendor/x/a.go",
     Ev.parse "/g/src/r/vendor/x/a.go", Ev.declareFile ⟨0⟩] rfl rfl
  exact ⟨hmain.1, hmain.2.1⟩

/-- C8 counterexample: an import that fails after registration (wiring
generation fails) leaves the visiting marker set, yet a second attempt does
not report an import cycle — it returns the registered package name from the
registry. -/
theorem failed_import_retry_not_cycle :
    (importSrc envBoom 2 sigma0 "r" "x" true).1 = .error "boom" ∧
    (importSrc envBoom 2 sigma0 "r" "x" true).2.1.rdir "x" = true ∧
    (importSrc envBoom 2 (importSrc envBoom 2 sigma0 "r" "x" true).2.1 "r" "x" true).1 =
      .ok "p" := by
  decide

theorem visiting_marker_never_cleared_witness :
    sigma0.rdir "zz" = false ∧
    importSrc envGta 2 (importSrc envGta 2 sigma0 "r" "x" true).2.1 "r" "x" true =
      (.error (importCycleMsg "x"), (importSrc envGta 2 sigma0 "r" "x" true).2.1, []) := by
  have h2 := (visiting_marker_never_cleared envGta).2 1 sigma0 "r" "x" true "undefined: zork"
    (by decide) 1 "r" true ("/g/src/r/vendor/x", "r/vendor") (by decide) (by decide) (by decide)
  exact ⟨rfl, h2⟩

/-- C6: in every successful non-cached import, the emitted trace decomposes
as: the load-phase events, then all per-file entry-point wiring events, then
the single combined global-variable-initializer event, then all init runs —
so the global-vars node executes after all of the package's wiring and before
any of its init routines or entry point. For an entry (`"main"`) package
built with tests skipped whose symbol table carries a `main` symbol, the
entry-point routine is the last init run, strictly after every init routine. -/
theorem globals_after_wiring_before_inits (env : Env) (fuel : Nat) (σ : Interpreter)
    (rP P : String) (sk : Bool) (name : String)
    (hnone : σ.srcPkg P = none)
    (h : (importSrc env (fuel + 1) σ rP P sk).1 = .ok name) :
    ∃ (tPre : List Ev) (ws ins : List node) (gs : SymTable),
      (importSrc env (fuel + 1) σ rP P sk).2.1.srcPkg P = some gs ∧
      (importSrc env (fuel + 1) σ rP P sk).2.2 =
        tPre ++ ws.map Ev.wiring ++ Ev.globals P :: ins.map Ev.initRun ∧
      ∀ m, name = mainID → sk = true → List.lookup mainID gs = some m →
        ∃ ins0, ins = ins0 ++ [m] := by
  rw [importSrc_succ] at h ⊢
  unfold importSrcBody at h ⊢
  rw [hnone] at h ⊢
  rcases hl : importLoad env (fun a b c d => importSrc env fuel a b c d) σ rP P sk
    with ⟨e, σ', tr⟩ | ⟨pk, rns, insL, σ2, tr⟩
  · rw [hl] at h
    simp at h
  · rw [hl] at h
    have hfin : (importFinish env P pk sk rns insL σ2).1 = Except.ok name := h
    have hshape := importFinish_ok_shape env P pk sk rns insL σ2 name hfin
    have hinterp := importFinish_interp env P pk sk rns insL σ2
    refine ⟨tr, rns, mainAug (σ2.scopes P) pk sk insL, σ2.scopes P, ?_, ?_, ?_⟩
    · show (importFinish env P pk sk rns insL σ2).2.1.srcPkg P = some (σ2.scopes P)
      rw [hinterp]
      simp [registerPkg, upd]
    · show tr ++ (importFinish env P pk sk rns insL σ2).2.2 = _
      rw [hshape.2]
      simp [List.append_assoc]
    · intro m hmain hsk hlook
      have hpk : pk = mainID := by rw [← hshape.1, hmain]
      show ∃ ins0, mainAug (σ2.scopes P) pk sk insL = ins0 ++ [m]
      unfold mainAug
      rw [hlook]
      show ∃ ins0, (if pk = mainID ∧ sk = true then insL ++ [m] else insL) = ins0 ++ [m]
      rw [if_pos ⟨hpk, hsk⟩]
      exact ⟨insL, rfl⟩

/-- `envOk` building an entry package: every file parses to package `"main"`
and the declaration pass records a `main` symbol. -/
def envMain : Env :=
  { envOk with
    ast := fun _ _ => .ok ("main", some ⟨0⟩)
    gta := fun _ _ _ s => .ok (s ++ [("main", ⟨9⟩)], []) }

theorem globals_after_wiring_before_inits_witness :
    (importSrc envMain 2 sigma0 "r" "m" true).1 = .ok "main" ∧
    ∃ (tPre : List Ev) (ws ins : List node) (gs : SymTable),
      (importSrc envMain 2 sigma0 "r" "m" true).2.1.srcPkg "m" = some gs ∧
      (importSrc envMain 2 sigma0 "r" "m" true).2.2 =
        tPre ++ ws.map Ev.wiring ++ Ev.globals "m" :: ins.map Ev.initRun ∧
      ∀ m, "main" = mainID → true = true → List.lookup mainID gs = some m →
        ∃ ins0, ins = ins0 ++ [m] := by
  have h : (importSrc envMain 2 sigma0 "r" "m" true).1 = .ok "main" := by decide
  exact ⟨h, globals_after_wiring_before_inits envMain 1 sigma0 "r" "m" true "main" rfl h⟩

/-- C4 (behavior of the code at a malformed archive): a gzip-layer failure is
returned synchronously to the caller, but a tar-stream failure is not — the
`fmt.Errorf` result at lines 234–236 is discarded, and the `switch
header.Typeflag` then dereferences the nil header that `tar.Reader.Next`
returns alongside its error: a runtime panic instead of the synchronous error
return the spec describes. The go vet unused-`fmt.Errorf` pattern marks the
drop as a slip; the intended `return "", fmt.Errorf(...)` matches the spec. -/
theorem archive_malformed_stream_behavior :
    (importSrcArchive envOk 1 sigma0 (.error "gzip: invalid header") true).1 =
      ArchOut.err "gzip: invalid header" ∧
    (importSrcArchive envOk 1 sigma0 (.ok [.tarErr "unexpected EOF"]) true).1 =
      ArchOut.panik ∧
    (importSrcArchive envOk 1 sigma0
        (.ok [.regEntry "a.go" "package p", .tarErr "unexpected EOF"]) true).1 =
      ArchOut.panik := by
  refine ⟨by decide, by decide, by decide⟩

/-! ## The package-name-conflict scenario (claim C7) -/

/-- A file that cannot make the parse loop fail for a reason other than a
package-name conflict: it is filtered out, or it reads and parses cleanly
and — when it parses to a root node — carries a nonempty package name,
declares no sub-imports, and its declaration pass succeeds on any scope. -/
def fileBenign (env : Env) (dir sub P : String) (sk : Bool) (f : String) : Prop :=
  env.skipFile f sk = true ∨
  (∃ content, env.readFile (goJoin2 dir f) = .ok content ∧
    ((∃ pn, env.ast content (goJoin2 dir f) = .ok (pn, none)) ∨
     (∃ pn r, env.ast content (goJoin2 dir f) = .ok (pn, some r) ∧ pn ≠ "" ∧
       env.nodeImports r = [] ∧
       ∀ s, ∃ y, env.gta r sub P s = .ok y)))

/-- The package name a file contributes in the parse loop (`none` when the
file is skipped, unreadable, unparsable, or has no root node). -/
def filePname (env : Env) (dir : String) (sk : Bool) (f : String) : Option String :=
  if env.skipFile f sk then none
  else
    match env.readFile (goJoin2 dir f) with
    | .error _ => none
    | .ok content =>
      match env.ast content (goJoin2 dir f) with
      | .error _ => none
      | .ok (_, none) => none
      | .ok (pn, some _) => some pn

lemma processSource_noRoot (env : Env) (sub : Sub) (dir rPath2 P : String) (sk : Bool)
    (name content : String) (st : LoopSt) (pn : String)
    (hast : env.ast content name = .ok (pn, none)) :
    processSource env sub dir rPath2 P sk name content st = (none, st, [Ev.parse name]) := by
  unfold processSource
  rw [hast]

lemma processSource_conflict (env : Env) (sub : Sub) (dir rPath2 P : String)
    (name content : String) (st : LoopSt) (pn : String) (r : node)
    (hast : env.ast content name = .ok (pn, some r))
    (h1 : st.pkgName ≠ "") (h2 : st.pkgName ≠ pn) :
    processSource env sub dir rPath2 P true name content st =
      (some (pkgConflictMsg st.pkgName pn dir), st, [Ev.parse name]) := by
  unfold processSource
  rw [hast]
  show (if st.pkgName ≠ "" ∧ st.pkgName ≠ pn ∧ true = true then _ else _) = _
  rw [if_pos ⟨h1, h2, rfl⟩]

lemma processSource_advance (env : Env) (sub : Sub) (dir rPath2 P : String)
    (name content : String) (st : LoopSt) (pn : String) (r : node)
    (sym : SymTable) (pend : List node)
    (hast : env.ast content name = .ok (pn, some r))
    (hnc : st.pkgName = "" ∨ st.pkgName = pn)
    (hni : env.nodeImports r = [])
    (hgta : env.gta r (effectivePkg rPath2 P) P (st.interp.scopes P) = .ok (sym, pend)) :
    processSource env sub dir rPath2 P true name content st =
      (none,
        ⟨{ st.interp with scopes := upd st.interp.scopes P sym },
          (if st.pkgName = "" then pn else st.pkgName),
          st.rootNodes ++ [r],
          revisitAdd st.revisit (effectivePkg rPath2 P) pend⟩,
        [Ev.parse name, Ev.declareFile r]) := by
  unfold processSource
  rw [hast]
  have hcond : ¬(st.pkgName ≠ "" ∧ st.pkgName ≠ pn ∧ true = true) := by
    rcases hnc with h | h
    · intro hc; exact hc.1 h
    · intro hc; exact hc.2.1 h
  show (if st.pkgName ≠ "" ∧ st.pkgName ≠ pn ∧ true = true then _ else _) = _
  rw [if_neg hcond, hni]
  show (match env.gta r (effectivePkg rPath2 P) P (st.interp.scopes P) with
        | .error e => _
        | .ok (sym, pending) => _) = _
  rw [hgta]
  rfl

/-- One non-skipped parse-loop step whose file parses to no root node. -/
lemma parseLoop_noRoot_step (env : Env) (sub : Sub) (dir rPath2 P : String)
    (f : String) (rest : List String) (st : LoopSt) (content pn : String)
    (hskip : ¬ env.skipFile f true = true)
    (hrf : env.readFile (goJoin2 dir f) = .ok content)
    (hast : env.ast content (goJoin2 dir f) = .ok (pn, none)) :
    parseLoop env sub dir rPath2 P true (f :: rest) st =
      ((parseLoop env sub dir rPath2 P true rest st).1,
       (parseLoop env sub dir rPath2 P true rest st).2.1,
       Ev.readFile (goJoin2 dir f) :: [Ev.parse (goJoin2 dir f)] ++
         (parseLoop env sub dir rPath2 P true rest st).2.2) := by
  conv_lhs => unfold parseLoop
  rw [if_neg hskip, hrf]
  show (match processSource env sub dir rPath2 P true (goJoin2 dir f) content st with
        | (some e, st', tr) => (some e, st', Ev.readFile (goJoin2 dir f) :: tr)
        | (none, st', tr) =>
          match parseLoop env sub dir rPath2 P true rest st' with
          | (o, st'', tr') => (o, st'', Ev.readFile (goJoin2 dir f) :: tr ++ tr')) = _
  rw [processSource_noRoot env sub dir rPath2 P true (goJoin2 dir f) content st pn hast]

/-- One non-skipped parse-loop step whose file advances the loop (root node
present, no name conflict, benign declaration pass). -/
lemma parseLoop_advance_step (env : Env) (sub : Sub) (dir rPath2 P : String)
    (f : String) (rest : List String) (st : LoopSt) (content pn : String) (r : node)
    (sym : SymTable) (pend : List node) (st2 : LoopSt)
    (hst2 : st2 = ⟨{ st.interp with scopes := upd st.interp.scopes P sym },
      (if st.pkgName = "" then pn else st.pkgName), st.rootNodes ++ [r],
      revisitAdd st.revisit (effectivePkg rPath2 P) pend⟩)
    (hskip : ¬ env.skipFile f true = true)
    (hrf : env.readFile (goJoin2 dir f) = .ok content)
    (hast : env.ast content (goJoin2 dir f) = .ok (pn, some r))
    (hnc : st.pkgName = "" ∨ st.pkgName = pn)
    (hni : env.nodeImports r = [])
    (hgta : env.gta r (effectivePkg rPath2 P) P (st.interp.scopes P) = .ok (sym, pend)) :
    parseLoop env sub dir rPath2 P true (f :: rest) st =
      ((parseLoop env sub dir rPath2 P true rest st2).1,
       (parseLoop env sub dir rPath2 P true rest st2).2.1,
       Ev.readFile (goJoin2 dir f) :: [Ev.parse (goJoin2 dir f), Ev.declareFile r] ++
         (parseLoop env sub dir rPath2 P true rest st2).2.2) := by
  subst hst2
  conv_lhs => unfold parseLoop
  rw [if_neg hskip, hrf]
  show (match processSource env sub dir rPath2 P true (goJoin2 dir f) content st with
        | (some e, st', tr) => (some e, st', Ev.readFile (goJoin2 dir f) :: tr)
        | (none, st', tr) =>
          match parseLoop env sub dir rPath2 P true rest st' with
          | (o, st'', tr') => (o, st'', Ev.readFile (goJoin2 dir f) :: tr ++ tr')) = _
  rw [processSource_advance env sub dir rPath2 P (goJoin2 dir f) content st pn r sym pend
    hast hnc hni hgta]

/-- One non-skipped parse-loop step on which the package-name conflict
fires. -/
lemma parseLoop_conflictFile_step (env : Env) (sub : Sub) (dir rPath2 P : String)
    (f : String) (rest : List String) (st : LoopSt) (content pn : String) (r : node)
    (hskip : ¬ env.skipFile f true = true)
    (hrf : env.readFile (goJoin2 dir f) = .ok content)
    (hast : env.ast content (goJoin2 dir f) = .ok (pn, some r))
    (h1 : st.pkgName ≠ "") (h2 : st.pkgName ≠ pn) :
    parseLoop env sub dir rPath2 P true (f :: rest) st =
      (some (pkgConflictMsg st.pkgName pn dir), st,
        [Ev.readFile (goJoin2 dir f), Ev.parse (goJoin2 dir f)]) := by
  conv_lhs => unfold parseLoop
  rw [if_neg hskip, hrf]
  show (match processSource env sub dir rPath2 P true (goJoin2 dir f) content st with
        | (some e, st', tr) => (some e, st', Ev.readFile (goJoin2 dir f) :: tr)
        | (none, st', tr) =>
          match parseLoop env sub dir rPath2 P true rest st' with
          | (o, st'', tr') => (o, st'', Ev.readFile (goJoin2 dir f) :: tr ++ tr')) = _
  rw [processSource_conflict env sub dir rPath2 P (goJoin2 dir f) content st pn r hast h1 h2]

/-- If every file of the listing is benign and the contributed package names
contain a conflict with the running `pkgName`, the parse loop fails with the
package-name-conflict error, and its trace contains no lowering event. -/
lemma parseLoop_conflict (env : Env) (sub : Sub) (dir rPath2 P : String) :
    ∀ files st,
      (∀ f ∈ files, fileBenign env dir (effectivePkg rPath2 P) P true f) →
      ((st.pkgName = "" ∧ ∃ a ∈ files.filterMap (filePname env dir true),
          ∃ b ∈ files.filterMap (filePname env dir true), a ≠ b) ∨
       (st.pkgName ≠ "" ∧ ∃ b ∈ files.filterMap (filePname env dir true), b ≠ st.pkgName)) →
      ∃ x y st' tr,
        parseLoop env sub dir rPath2 P true files st =
          (some (pkgConflictMsg x y dir), st', tr) ∧
        ∀ ev ∈ tr, ∀ n q, ev ≠ Ev.lower n q := by
  intro files
  induction files with
  | nil =>
    intro st _ hconf
    rcases hconf with ⟨_, a, ha, _⟩ | ⟨_, b, hb, _⟩
    · simp at ha
    · simp at hb
  | cons f rest ih =>
    intro st hben hconf
    have hbf := hben f (by simp)
    have hbrest : ∀ g ∈ rest, fileBenign env dir (effectivePkg rPath2 P) P true g :=
      fun g hg => hben g (by simp [hg])
    by_cases hskip : env.skipFile f true = true
    · have hfp : filePname env dir true f = none := by simp [filePname, hskip]
      simp only [List.filterMap_cons, hfp] at hconf
      obtain ⟨x, y, st', tr, heq, hnl⟩ := ih st hbrest hconf
      refine ⟨x, y, st', tr, ?_, hnl⟩
      show parseLoop env sub dir rPath2 P true (f :: rest) st = _
      unfold parseLoop
      rw [if_pos hskip, heq]
    · rcases hbf with hsk | ⟨content, hrf, hast⟩
      · exact absurd hsk hskip
      rcases hast with ⟨pn, hastn⟩ | ⟨pn, r, hasts, hpn, hni, hgta⟩
      · -- root node absent: the file is skipped after parsing
        have hfp : filePname env dir true f = none := by
          simp [filePname, hskip, hrf, hastn]
        simp only [List.filterMap_cons, hfp] at hconf
        obtain ⟨x, y, st', tr, heq, hnl⟩ := ih st hbrest hconf
        refine ⟨x, y, st', Ev.readFile (goJoin2 dir f) :: [Ev.parse (goJoin2 dir f)] ++ tr,
          ?_, ?_⟩
        · rw [parseLoop_noRoot_step env sub dir rPath2 P f rest st content pn hskip hrf hastn,
            heq]
        · show ∀ ev ∈ Ev.readFile (goJoin2 dir f) :: [Ev.parse (goJoin2 dir f)] ++ tr,
            ∀ (n : node) (q : String), ev ≠ Ev.lower n q
          intro ev hev n q
          rcases List.mem_cons.1 hev with rfl | hev
          · simp
          rcases List.mem_cons.1 hev with rfl | hev
          · simp
          · exact hnl ev hev n q
      · -- root node present, package name pn
        have hfp : filePname env dir true f = some pn := by
          simp [filePname, hskip, hrf, hasts]
        simp only [List.filterMap_cons, hfp] at hconf
        obtain ⟨⟨sym, pend⟩, hg⟩ := hgta (st.interp.scopes P)
        rcases hconf with ⟨hemp, a, ha, b, hb, hab⟩ | ⟨hne, b, hb, hbne⟩
        · -- pkgName still empty: no conflict on this file; it sets pkgName := pn
          have hrest : ∃ c ∈ rest.filterMap (filePname env dir true), c ≠ pn := by
            by_cases hap : a = pn
            · subst hap
              rcases List.mem_cons.1 hb with hbh | hbl
              · exact absurd hbh.symm (by simpa using hab)
              · exact ⟨b, hbl, fun hc => hab hc.symm⟩
            · rcases List.mem_cons.1 ha with hah | hal
              · exact absurd hah hap
              · exact ⟨a, hal, hap⟩
          obtain ⟨x, y, st', tr, heq, hnl⟩ := ih
            ⟨{ st.interp with scopes := upd st.interp.scopes P sym },
              (if st.pkgName = "" then pn else st.pkgName),
              st.rootNodes ++ [r],
              revisitAdd st.revisit (effectivePkg rPath2 P) pend⟩
            hbrest
            (Or.inr ⟨by rw [if_pos hemp]; exact hpn, by rw [if_pos hemp]; exact hrest⟩)
          refine ⟨x, y, st',
            Ev.readFile (goJoin2 dir f) :: [Ev.parse (goJoin2 dir f), Ev.declareFile r] ++ tr,
            ?_, ?_⟩
          · rw [parseLoop_advance_step env sub dir rPath2 P f rest st content pn r sym pend
              _ rfl hskip hrf hasts (Or.inl hemp) hni hg, heq]
          · show ∀ ev ∈ Ev.readFile (goJoin2 dir f) ::
                [Ev.parse (goJoin2 dir f), Ev.declareFile r] ++ tr,
              ∀ (n : node) (q : String), ev ≠ Ev.lower n q
            intro ev hev n q
            rcases List.mem_cons.1 hev with rfl | hev
            · simp
            rcases List.mem_cons.1 hev with rfl | hev
            · simp
            rcases List.mem_cons.1 hev with rfl | hev
            · simp
            · exact hnl ev hev n q
        · -- pkgName already fixed
          by_cases hpneq : st.pkgName = pn
          · -- same name: continue
            have hbl : b ∈ rest.filterMap (filePname env dir true) := by
              rcases List.mem_cons.1 hb with hbh | hbl
              · exact absurd (hpneq.trans hbh.symm).symm hbne
              · exact hbl
            obtain ⟨x, y, st', tr, heq, hnl⟩ := ih
              ⟨{ st.interp with scopes := upd st.interp.scopes P sym },
                (if st.pkgName = "" then pn else st.pkgName),
                st.rootNodes ++ [r],
                revisitAdd st.revisit (effectivePkg rPath2 P) pend⟩
              hbrest
              (Or.inr ⟨by rw [if_neg hne]; exact hne, by rw [if_neg hne]; exact ⟨b, hbl, hbne⟩⟩)
            refine ⟨x, y, st',
              Ev.readFile (goJoin2 dir f) :: [Ev.parse (goJoin2 dir f), Ev.declareFile r] ++ tr,
              ?_, ?_⟩
            · rw [parseLoop_advance_step env sub dir rPath2 P f rest st content pn r sym pend
                _ rfl hskip hrf hasts (Or.inr hpneq) hni hg, heq]
            · show ∀ ev ∈ Ev.readFile (goJoin2 dir f) ::
                  [Ev.parse (goJoin2 dir f), Ev.declareFile r] ++ tr,
                ∀ (n : node) (q : String), ev ≠ Ev.lower n q
              intro ev hev n q
              rcases List.mem_cons.1 hev with rfl | hev
              · simp
              rcases List.mem_cons.1 hev with rfl | hev
              · simp
              rcases List.mem_cons.1 hev with rfl | hev
              · simp
              · exact hnl ev hev n q
          · -- different name: the conflict fires on this file
            refine ⟨st.pkgName, pn, st,
              Ev.readFile (goJoin2 dir f) :: [Ev.parse (goJoin2 dir f)], ?_, ?_⟩
            · rw [parseLoop_conflictFile_step env sub dir rPath2 P f rest st content pn r
                hskip hrf hasts hne hpneq]
            · show ∀ ev ∈ (Ev.readFile (goJoin2 dir f) :: [Ev.parse (goJoin2 dir f)] : List Ev),
                ∀ (n : node) (q : String), ev ≠ Ev.lower n q
              intro ev hev n q
              rcases List.mem_cons.1 hev with rfl | hev
              · simp
              rcases List.mem_cons.1 hev with rfl | hev
              · simp
              · simp at hev

/-- C7: when two included files of a non-test build contribute different
package names — every file otherwise benign — the import fails with the
package-name-conflict error, before any control-flow lowering runs on any
file: no `lower` event occurs anywhere in the emitted trace. -/
theorem package_name_conflict_before_lowering (env : Env) (fuel : Nat) (σ : Interpreter)
    (rP P dir rPath2 : String) (files : List String)
    (hnone : σ.srcPkg P = none) (hvis : σ.rdir P = false)
    (hres : resolveDir env σ.name rP P = .ok (dir, rPath2))
    (hdir : env.readDir dir = .ok files)
    (hben : ∀ f ∈ files, fileBenign env dir (effectivePkg rPath2 P) P true f)
    (hconf : ∃ a ∈ files.filterMap (filePname env dir true),
             ∃ b ∈ files.filterMap (filePname env dir true), a ≠ b) :
    ∃ (x y : String) (σ' : Interpreter) (tr : List Ev),
      importSrc env (fuel + 1) σ rP P true = (.error (pkgConflictMsg x y dir), σ', tr) ∧
      ∀ ev ∈ tr, ∀ (n : node) (q : String), ev ≠ Ev.lower n q := by
  obtain ⟨x, y, st', trL, hloop, hnl⟩ :=
    parseLoop_conflict env (fun a b c d => importSrc env fuel a b c d) dir rPath2 P files
      ⟨{ σ with rdir := upd σ.rdir P true }, "", [], []⟩ hben (Or.inl ⟨rfl, hconf⟩)
  have hload : importLoad env (fun a b c d => importSrc env fuel a b c d) σ rP P true =
      .error (pkgConflictMsg x y dir, st'.interp, Ev.readDir dir :: trL) := by
    unfold importLoad
    split
    · next e heq =>
      rw [hres] at heq
      cases heq
    · next d r2 heq =>
      rw [hres] at heq
      simp only [Except.ok.injEq, Prod.mk.injEq] at heq
      obtain ⟨rfl, rfl⟩ := heq
      rw [if_neg (by simp [hvis])]
      split
      · next e heq2 =>
        rw [hdir] at heq2
        cases heq2
      · next files2 heq2 =>
        rw [hdir] at heq2
        simp only [Except.ok.injEq] at heq2
        subst heq2
        split
        · next e st2 tr2 heq3 =>
          rw [hloop] at heq3
          simp only [Prod.mk.injEq, Option.some.injEq] at heq3
          obtain ⟨rfl, rfl, rfl⟩ := heq3
          rfl
        · next st2 tr2 heq3 =>
          rw [hloop] at heq3
          simp at heq3
  refine ⟨x, y, st'.interp, Ev.readDir dir :: trL, ?_, ?_⟩
  · rw [importSrc_succ]
    unfold importSrcBody
    rw [hnone, hload]
  · intro ev hev n q
    rcases List.mem_cons.1 hev with rfl | hev
    · simp
    · exact hnl ev hev n q

/-- `envOk` with two files whose parses disagree on the package name. -/
def envConf : Env :=
  { envOk with
    readDir := fun _ => .ok ["a.go", "b.go"]
    ast := fun _ n =>
      if goHasSuffix n "a.go" then .ok ("p", some ⟨1⟩) else .ok ("q", some ⟨2⟩) }

theorem package_name_conflict_before_lowering_witness :
    ∃ (x y : String) (σ' : Interpreter) (tr : List Ev),
      importSrc envConf 2 sigma0 "r" "x" true =
        (.error (pkgConflictMsg x y "/g/src/r/vendor/x"), σ', tr) ∧
      ∀ ev ∈ tr, ∀ (n : node) (q : String), ev ≠ Ev.lower n q := by
  refine package_name_conflict_before_lowering envConf 1 sigma0 "r" "x" "/g/src/r/vendor/x"
    "r/vendor" ["a.go", "b.go"] rfl rfl (by decide) (by decide) ?_ (by decide)
  intro f hf
  rcases List.mem_cons.1 hf with rfl | hf
  · refine Or.inr ⟨"package p", by decide, Or.inr ⟨"p", ⟨1⟩, by decide, by decide, rfl, ?_⟩⟩
    intro s
    exact ⟨((s ++ [("x", (⟨1⟩ : node))], []) : SymTable × List node), rfl⟩
  rcases List.mem_cons.1 hf with rfl | hf
  · refine Or.inr ⟨"package p", by decide, Or.inr ⟨"q", ⟨2⟩, by decide, by decide, rfl, ?_⟩⟩
    intro s
    exact ⟨((s ++ [("x", (⟨1⟩ : node))], []) : SymTable × List node), rfl⟩
  · simp at hf

/-! ## Directory vs archive loading (claim C5) -/

/-- A file the skip predicate excludes advances the directory parse loop
without effect. -/
lemma parseLoop_skip_step (env : Env) (sub : Sub) (dir rPath2 P : String) (sk : Bool)
    (f : String) (rest : List String) (st : LoopSt)
    (hskip : env.skipFile f sk = true) :
    parseLoop env sub dir rPath2 P sk (f :: rest) st =
      parseLoop env sub dir rPath2 P sk rest st := by
  conv_lhs => unfold parseLoop
  rw [if_pos hskip]

/-- A non-skipped readable file advances the directory parse loop through
`processSource`, whose result decides between aborting and recursing. -/
lemma parseLoop_reg_step (env : Env) (sub : Sub) (dir rPath2 P : String) (sk : Bool)
    (f content : String) (rest : List String) (st : LoopSt)
    (o : Option Err) (st' : LoopSt) (tr : List Ev)
    (hskip : ¬ env.skipFile f sk = true)
    (hrf : env.readFile (goJoin2 dir f) = .ok content)
    (hps : processSource env sub dir rPath2 P sk (goJoin2 dir f) content st = (o, st', tr)) :
    parseLoop env sub dir rPath2 P sk (f :: rest) st =
      (match o with
       | some e => (some e, st', Ev.readFile (goJoin2 dir f) :: tr)
       | none =>
         ((parseLoop env sub dir rPath2 P sk rest st').1,
          (parseLoop env sub dir rPath2 P sk rest st').2.1,
          Ev.readFile (goJoin2 dir f) :: tr ++
            (parseLoop env sub dir rPath2 P sk rest st').2.2)) := by
  conv_lhs => unfold parseLoop
  rw [if_neg hskip, hrf]
  show (match processSource env sub dir rPath2 P sk (goJoin2 dir f) content st with
        | (some e, st', tr) => (some e, st', Ev.readFile (goJoin2 dir f) :: tr)
        | (none, st', tr) =>
          match parseLoop env sub dir rPath2 P sk rest st' with
          | (o2, st'', tr') => (o2, st'', Ev.readFile (goJoin2 dir f) :: tr ++ tr')) = _
  split
  · next e st2 tr2 heq =>
    rw [hps] at heq
    simp only [Prod.mk.injEq] at heq
    obtain ⟨rfl, rfl, rfl⟩ := heq
    rfl
  · next st2 tr2 heq =>
    rw [hps] at heq
    simp only [Prod.mk.injEq] at heq
    obtain ⟨rfl, rfl, rfl⟩ := heq
    rfl

/-- A regular archive entry the skip predicate excludes advances the archive
loop without effect. -/
lemma archLoop_skip_step (env : Env) (sub : Sub) (dir rPath2 P : String) (sk : Bool)
    (f c : String) (rest : List TarItem) (st : LoopSt)
    (hskip : env.skipFile f sk = true) :
    archLoop env sub dir rPath2 P sk (TarItem.regEntry f c :: rest) st =
      archLoop env sub dir rPath2 P sk rest st := by
  conv_lhs => unfold archLoop
  rw [if_pos hskip]

/-- A non-skipped regular archive entry advances the archive loop through the
same `processSource` body as the directory loop. -/
lemma archLoop_reg_step (env : Env) (sub : Sub) (dir rPath2 P : String) (sk : Bool)
    (f c : String) (rest : List TarItem) (st : LoopSt)
    (o : Option Err) (st' : LoopSt) (tr : List Ev)
    (hskip : ¬ env.skipFile f sk = true)
    (hps : processSource env sub dir rPath2 P sk (goJoin2 dir f) c st = (o, st', tr)) :
    archLoop env sub dir rPath2 P sk (TarItem.regEntry f c :: rest) st =
      (match o with
       | some e => (AOut.fail e, st', tr)
       | none =>
         ((archLoop env sub dir rPath2 P sk rest st').1,
          (archLoop env sub dir rPath2 P sk rest st').2.1,
          tr ++ (archLoop env sub dir rPath2 P sk rest st').2.2)) := by
  conv_lhs => unfold archLoop
  rw [if_neg hskip]
  show (match processSource env sub dir rPath2 P sk (goJoin2 dir f) c st with
        | (some e, st', tr) => (AOut.fail e, st', tr)
        | (none, st', tr) =>
          match archLoop env sub dir rPath2 P sk rest st' with
          | (o2, st'', tr') => (o2, st'', tr ++ tr')) = _
  split
  · next e st2 tr2 heq =>
    rw [hps] at heq
    simp only [Prod.mk.injEq] at heq
    obtain ⟨rfl, rfl, rfl⟩ := heq
    rfl
  · next st2 tr2 heq =>
    rw [hps] at heq
    simp only [Prod.mk.injEq] at heq
    obtain ⟨rfl, rfl, rfl⟩ := heq
    rfl

/-- The archive loop over the regular entries of a file set tracks the
directory parse loop over the corresponding listing step by step: both reach
the same final accumulator, and the archive outcome is `done` or `fail e`
exactly as the directory outcome is `none` or `some e`. -/
lemma loops_agree (env : Env) (sub : Sub) (dir rPath2 P : String) (sk : Bool) :
    ∀ (fs : List (String × String)) (st : LoopSt),
      (∀ p ∈ fs, env.readFile (goJoin2 dir p.1) = .ok p.2) →
      (archLoop env sub dir rPath2 P sk (fs.map fun p => TarItem.regEntry p.1 p.2) st).1 =
        (match (parseLoop env sub dir rPath2 P sk (fs.map Prod.fst) st).1 with
         | none => AOut.done
         | some e => AOut.fail e) ∧
      (archLoop env sub dir rPath2 P sk (fs.map fun p => TarItem.regEntry p.1 p.2) st).2.1 =
        (parseLoop env sub dir rPath2 P sk (fs.map Prod.fst) st).2.1 := by
  intro fs
  induction fs with
  | nil => intro st _; exact ⟨rfl, rfl⟩
  | cons p rest ih =>
    intro st hrd
    obtain ⟨n, c⟩ := p
    have hrf : env.readFile (goJoin2 dir n) = .ok c := hrd (n, c) (by simp)
    have hrest : ∀ q ∈ rest, env.readFile (goJoin2 dir q.1) = .ok q.2 :=
      fun q hq => hrd q (by simp [hq])
    simp only [List.map_cons]
    by_cases hskip : env.skipFile n sk = true
    · rw [archLoop_skip_step env sub dir rPath2 P sk n c _ st hskip,
        parseLoop_skip_step env sub dir rPath2 P sk n _ st hskip]
      exact ih st hrest
    · rcases hps : processSource env sub dir rPath2 P sk (goJoin2 dir n) c st with ⟨o, st', tr⟩
      rw [archLoop_reg_step env sub dir rPath2 P sk n c _ st o st' tr hskip hps,
        parseLoop_reg_step env sub dir rPath2 P sk n c _ st o st' tr hskip hrf hps]
      cases o with
      | some e => exact ⟨rfl, rfl⟩
      | none => exact ih st' hrest

/-- Evaluation of `importLoad` when the parse loop aborts with an error. -/
lemma importLoad_of_parseFail {sub : Sub} (env : Env) (σ : Interpreter)
    (rp ip : String) (sk : Bool) (dir rPath2 : String) (files : List String)
    (e : Err) (st : LoopSt) (trL : List Ev)
    (hres : resolveDir env σ.name rp ip = .ok (dir, rPath2))
    (hvis : σ.rdir ip = false)
    (hdir : env.readDir dir = .ok files)
    (hloop : parseLoop env sub dir rPath2 ip sk files
        ⟨{ σ with rdir := upd σ.rdir ip true }, "", [], []⟩ = (some e, st, trL)) :
    importLoad env sub σ rp ip sk = .error (e, st.interp, Ev.readDir dir :: trL) := by
  unfold importLoad
  split
  · next e2 heq =>
    rw [hres] at heq
    cases heq
  · next d r2 heq =>
    rw [hres] at heq
    simp only [Except.ok.injEq, Prod.mk.injEq] at heq
    obtain ⟨rfl, rfl⟩ := heq
    rw [if_neg (by simp [hvis])]
    split
    · next e2 heq2 =>
      rw [hdir] at heq2
      cases heq2
    · next files2 heq2 =>
      rw [hdir] at heq2
      simp only [Except.ok.injEq] at heq2
      subst heq2
      split
      · next e2 st2 tr2 heq3 =>
        rw [hloop] at heq3
        simp only [Prod.mk.injEq, Option.some.injEq] at heq3
        obtain ⟨rfl, rfl, rfl⟩ := heq3
        rfl
      · next st2 tr2 heq3 =>
        rw [hloop] at heq3
        simp at heq3

/-- Evaluation of `importLoad` when the parse loop completes: the result is
the retry and lowering tail of the pipeline applied to the loop
accumulator. -/
lemma importLoad_of_parseOk {sub : Sub} (env : Env) (σ : Interpreter)
    (rp ip : String) (sk : Bool) (dir rPath2 : String) (files : List String)
    (st : LoopSt) (trL : List Ev)
    (hres : resolveDir env σ.name rp ip = .ok (dir, rPath2))
    (hvis : σ.rdir ip = false)
    (hdir : env.readDir dir = .ok files)
    (hloop : parseLoop env sub dir rPath2 ip sk files
        ⟨{ σ with rdir := upd σ.rdir ip true }, "", [], []⟩ = (none, st, trL)) :
    importLoad env sub σ rp ip sk =
      (match retryLoop env ip st.revisit st.interp with
       | (some e, σ2, tr2) => .error (e, σ2, Ev.readDir dir :: trL ++ tr2)
       | (none, σ2, tr2) =>
         match cfgLoop env ip st.rootNodes with
         | (some e, _, tr3) => .error (e, σ2, Ev.readDir dir :: trL ++ tr2 ++ tr3)
         | (none, initNodes, tr3) =>
           .ok (st.pkgName, st.rootNodes, initNodes, σ2,
             Ev.readDir dir :: trL ++ tr2 ++ tr3)) := by
  unfold importLoad
  split
  · next e2 heq =>
    rw [hres] at heq
    cases heq
  · next d r2 heq =>
    rw [hres] at heq
    simp only [Except.ok.injEq, Prod.mk.injEq] at heq
    obtain ⟨rfl, rfl⟩ := heq
    rw [if_neg (by simp [hvis])]
    split
    · next e2 heq2 =>
      rw [hdir] at heq2
      cases heq2
    · next files2 heq2 =>
      rw [hdir] at heq2
      simp only [Except.ok.injEq] at heq2
      subst heq2
      split
      · next e2 st2 tr2 heq3 =>
        rw [hloop] at heq3
        simp at heq3
      · next st2 tr2 heq3 =>
        rw [hloop] at heq3
        simp only [Prod.mk.injEq] at heq3
        obtain ⟨-, rfl, rfl⟩ := heq3
        rfl

/-- Evaluation of `importSrcArchive` on a decoded entry list, given the
archive loop's result: the retry, lowering and finishing tail of the pipeline
applied to the loop accumulator. -/
lemma importSrcArchive_steps (env : Env) (fuel : Nat) (σ : Interpreter) (sk : Bool)
    (items : List TarItem) (dir rPath2 : String) (ao : AOut) (ast : LoopSt) (atr : List Ev)
    (hres : resolveDir env σ.name "." "/" = .ok (dir, rPath2))
    (harch : archLoop env (fun a b c d => importSrc env fuel a b c d) dir rPath2 "/" sk items
        ⟨{ σ with rdir := upd σ.rdir "/" true }, "", [], []⟩ = (ao, ast, atr)) :
    importSrcArchive env fuel σ (.ok items) sk =
      (match ao with
       | .panik => (ArchOut.panik, ast.interp, atr)
       | .fail e => (ArchOut.err e, ast.interp, atr)
       | .done =>
         match retryLoop env "/" ast.revisit ast.interp with
         | (some e, σ2, tr2) => (ArchOut.err e, σ2, atr ++ tr2)
         | (none, σ2, tr2) =>
           match cfgLoop env "/" ast.rootNodes with
           | (some e, _, tr3) => (ArchOut.err e, σ2, atr ++ tr2 ++ tr3)
           | (none, initNodes, tr3) =>
             match importFinish env "/" ast.pkgName sk ast.rootNodes initNodes σ2 with
             | (.ok s, σ3, tr4) => (ArchOut.ok s, σ3, atr ++ tr2 ++ tr3 ++ tr4)
             | (.error e, σ3, tr4) => (ArchOut.err e, σ3, atr ++ tr2 ++ tr3 ++ tr4)) := by
  unfold importSrcArchive
  split
  · next e heq =>
    rw [hres] at heq
    cases heq
  · next d r2 heq =>
    rw [hres] at heq
    simp only [Except.ok.injEq, Prod.mk.injEq] at heq
    obtain ⟨rfl, rfl⟩ := heq
    split
    · next e heq2 => cases heq2
    · next items2 heq2 =>
      simp only [Except.ok.injEq] at heq2
      subst heq2
      split
      · next st2 tr2 heq3 =>
        rw [harch] at heq3
        simp only [Prod.mk.injEq] at heq3
        obtain ⟨rfl, rfl, rfl⟩ := heq3
        rfl
      · next e st2 tr2 heq3 =>
        rw [harch] at heq3
        simp only [Prod.mk.injEq, AOut.fail.injEq] at heq3
        obtain ⟨rfl, rfl, rfl⟩ := heq3
        rfl
      · next st2 tr2 heq3 =>
        rw [harch] at heq3
        simp only [Prod.mk.injEq] at heq3
        obtain ⟨rfl, rfl, rfl⟩ := heq3
        rfl

/-- Evaluation of one unfolding of `importSrc` on a cache miss: the result is
the load pipeline followed by registration and initialization. -/
lemma importSrc_of_load (env : Env) (fuel : Nat) (σ : Interpreter)
    (rp ip : String) (sk : Bool)
    (hnone : σ.srcPkg ip = none) :
    importSrc env (fuel + 1) σ rp ip sk =
      (match importLoad env (fun a b c d => importSrc env fuel a b c d) σ rp ip sk with
       | .error (e, σ', tr) => (Except.error e, σ', tr)
       | .ok (pk, rns, ins, σ2, tr) =>
         ((importFinish env ip pk sk rns ins σ2).1,
          (importFinish env ip pk sk rns ins σ2).2.1,
          tr ++ (importFinish env ip pk sk rns ins σ2).2.2)) := by
  rw [importSrc_succ]
  unfold importSrcBody
  rw [hnone]

/-- Case split of the finishing step's outcome: the archive rendering of the
result of `importFinish` is `toArch` of the directory rendering, with the same
interpreter. -/
lemma finishCase (r : (Except Err String) × Interpreter × List Ev) (A : List Ev) :
    ((match r with
      | (.ok s, σ3, tr4) => (ArchOut.ok s, σ3, A ++ tr4)
      | (.error e, σ3, tr4) => (ArchOut.err e, σ3, A ++ tr4)) :
        ArchOut × Interpreter × List Ev).1 = toArch r.1 ∧
    ((match r with
      | (.ok s, σ3, tr4) => (ArchOut.ok s, σ3, A ++ tr4)
      | (.error e, σ3, tr4) => (ArchOut.err e, σ3, A ++ tr4)) :
        ArchOut × Interpreter × List Ev).2.1 = r.2.1 := by
  rcases r with ⟨out, σ3, tr4⟩
  cases out with
  | ok s => exact ⟨rfl, rfl⟩
  | error e => exact ⟨rfl, rfl⟩

/-- C5: loading one file set from a directory and from the equivalent tar+gzip
archive is the same computation. When the archive's fixed import path `"/"` is
unregistered and not mid-import, the resolution yields some directory, the
directory listing is exactly the archive's regular entries in order and each
file's content equals the matching entry's content, the archive import returns
the directory import's outcome (under `toArch`) and the very same final
interpreter — in particular identical `srcPkg` symbol tables and `pkgNames`
records are registered for the package. -/
theorem directory_archive_same_registration (env : Env) (fuel : Nat) (σ : Interpreter)
    (sk : Bool) (fs : List (String × String)) (dir rPath2 : String)
    (hnone : σ.srcPkg "/" = none)
    (hvis : σ.rdir "/" = false)
    (hres : resolveDir env σ.name "." "/" = .ok (dir, rPath2))
    (hdir : env.readDir dir = .ok (fs.map Prod.fst))
    (hrd : ∀ p ∈ fs, env.readFile (goJoin2 dir p.1) = .ok p.2) :
    (importSrcArchive env fuel σ (.ok (fs.map fun p => TarItem.regEntry p.1 p.2)) sk).1 =
      toArch (importSrc env (fuel + 1) σ "." "/" sk).1 ∧
    (importSrcArchive env fuel σ (.ok (fs.map fun p => TarItem.regEntry p.1 p.2)) sk).2.1 =
      (importSrc env (fuel + 1) σ "." "/" sk).2.1 := by
  rcases hloop : parseLoop env (fun a b c d => importSrc env fuel a b c d) dir rPath2 "/" sk
      (fs.map Prod.fst) ⟨{ σ with rdir := upd σ.rdir "/" true }, "", [], []⟩ with ⟨o, st, trL⟩
  rcases harch : archLoop env (fun a b c d => importSrc env fuel a b c d) dir rPath2 "/" sk
      (fs.map fun p => TarItem.regEntry p.1 p.2)
      ⟨{ σ with rdir := upd σ.rdir "/" true }, "", [], []⟩ with ⟨ao, ast, atr⟩
  obtain ⟨hA1, hA2⟩ := loops_agree env (fun a b c d => importSrc env fuel a b c d)
    dir rPath2 "/" sk fs ⟨{ σ with rdir := upd σ.rdir "/" true }, "", [], []⟩ hrd
  rw [hloop, harch] at hA1 hA2
  have hA2' : st = ast := hA2.symm
  subst hA2'
  cases o with
  | some e =>
    have hao : ao = AOut.fail e := hA1
    subst hao
    have hload := importLoad_of_parseFail env σ "." "/" sk dir rPath2 (fs.map Prod.fst)
      e st trL hres hvis hdir hloop
    have harcEq := importSrcArchive_steps env fuel σ sk
      (fs.map fun p => TarItem.regEntry p.1 p.2) dir rPath2 (AOut.fail e) st atr hres harch
    rw [importSrc_of_load env fuel σ "." "/" sk hnone, hload, harcEq]
    exact ⟨rfl, rfl⟩
  | none =>
    have hao : ao = AOut.done := hA1
    subst hao
    have hload := importLoad_of_parseOk env σ "." "/" sk dir rPath2 (fs.map Prod.fst)
      st trL hres hvis hdir hloop
    have harcEq := importSrcArchive_steps env fuel σ sk
      (fs.map fun p => TarItem.regEntry p.1 p.2) dir rPath2 AOut.done st atr hres harch
    rw [importSrc_of_load env fuel σ "." "/" sk hnone, hload, harcEq]
    rcases hrt : retryLoop env "/" st.revisit st.interp with ⟨o2, σ2, tr2⟩
    cases o2 with
    | some e => exact ⟨rfl, rfl⟩
    | none =>
      rcases hcf : cfgLoop env "/" st.rootNodes with ⟨o3, ins, tr3⟩
      cases o3 with
      | some e => exact ⟨rfl, rfl⟩
      | none =>
        exact finishCase (importFinish env "/" st.pkgName sk st.rootNodes ins σ2)
          (atr ++ tr2 ++ tr3)

theorem directory_archive_same_registration_witness :
    (importSrcArchive envOk 1 sigma0 (.ok [TarItem.regEntry "a.go" "package p"]) true).1 =
      toArch (importSrc envOk 2 sigma0 "." "/" true).1 ∧
    (importSrcArchive envOk 1 sigma0 (.ok [TarItem.regEntry "a.go" "package p"]) true).2.1 =
      (importSrc envOk 2 sigma0 "." "/" true).2.1 :=
  directory_archive_same_registration envOk 1 sigma0 true [("a.go", "package p")]
    "/g/src/vendor" "vendor" rfl rfl (by decide) (by decide)
    (by
      intro p hp
      rcases List.mem_cons.1 hp with rfl | hp
      · decide
      · simp at hp)

end YaegiImport
